import Mathlib

/-!
Verification of the temporal sequence tracker of the cvjutsu repository.

The development shallowly embeds the core of `src/cvjutsu/sequence_tracker.py`
together with the pattern catalog of `src/cvjutsu/jutsu_db.py` and the
configuration constants of `src/config.py`.  Python floats (wall-clock
timestamps and confidences) are modelled by rational numbers, Python's
`deque(maxlen=N)` by a list that drops its oldest entries on overflow, and the
wall-clock read `time.time()` inside `update` by an explicit `now` argument.
The module-level configuration constants (and the module-level `JUTSU_LIST`
catalog) are gathered into a `Config` record that is passed explicitly; the
field values of `realConfig` are the literal constants of `src/config.py`.
-/

/-- Translation of the `Jutsu` dataclass (src/cvjutsu/jutsu_db.py, lines 8-14). -/
structure Jutsu where
  name : String
  display : String
  element : String
  seals : List String
  effect_asset : Option String
deriving DecidableEq, Repr

/-- First entry of `JUTSU_LIST` (src/cvjutsu/jutsu_db.py, lines 18-24). -/
def katonJutsu : Jutsu :=
  { name := "katon_goukakyu"
    display := "Katon: Goukakyu (Fireball)"
    element := "Fire"
    seals := ["mi", "hitsuji", "tora"]
    effect_asset := some "fireball.png" }

/-- Second entry of `JUTSU_LIST` (src/cvjutsu/jutsu_db.py, lines 25-31). -/
def kageBunshinJutsu : Jutsu :=
  { name := "kage_bunshin"
    display := "Kage Bunshin (Shadow Clone)"
    element := "None"
    seals := ["hitsuji"]
    effect_asset := some "shadow_clone.png" }

/-- Third entry of `JUTSU_LIST` (src/cvjutsu/jutsu_db.py, lines 32-38). -/
def chidoriJutsu : Jutsu :=
  { name := "chidori"
    display := "Chidori"
    element := "Lightning"
    seals := ["ushi", "tori", "hitsuji"]
    effect_asset := some "chidori.png" }

/-- Translation of the module-level catalog `JUTSU_LIST`
(src/cvjutsu/jutsu_db.py, lines 17-39). -/
def JUTSU_LIST : List Jutsu := [katonJutsu, kageBunshinJutsu, chidoriJutsu]

/-- The configuration constants read by the tracker (src/config.py, lines 28-33)
together with the catalog it matches against.  Gathering them in a record lets
the theorems quantify over configurations as the spec's section 6 describes;
`realConfig` below holds the literal values of the source. -/
structure Config where
  SEAL_HOLD_FRAMES : ℕ
  CONFIDENCE_THRESHOLD : ℚ
  SEQUENCE_TIMEOUT_SEC : ℚ
  SINGLE_SEAL_DELAY_SEC : ℚ
  JUTSU_LIST : List Jutsu

/-- The configuration of src/config.py: `CONFIDENCE_THRESHOLD = 0.6`,
`SEAL_HOLD_FRAMES = 5`, `SEQUENCE_TIMEOUT_SEC = 5.0`,
`SINGLE_SEAL_DELAY_SEC = 1.5`, catalog `JUTSU_LIST`. -/
def realConfig : Config :=
  { SEAL_HOLD_FRAMES := 5
    CONFIDENCE_THRESHOLD := 3 / 5
    SEQUENCE_TIMEOUT_SEC := 5
    SINGLE_SEAL_DELAY_SEC := 3 / 2
    JUTSU_LIST := JUTSU_LIST }

/-- Translation of the `TrackerState` dataclass
(src/cvjutsu/sequence_tracker.py, lines 19-27). -/
structure TrackerState where
  current_seal : Option String
  current_confidence : ℚ
  confirmed_sequence : List String
  matched_jutsu : Option Jutsu
  seal_just_confirmed : Bool
  jutsu_just_matched : Bool
deriving DecidableEq, Repr

/-- The mutable fields of the `SequenceTracker` class
(src/cvjutsu/sequence_tracker.py, lines 34-41).  The deque `_window` is a list
whose head is the oldest entry. -/
structure SequenceTracker where
  window : List (Option String)
  last_confirmed : Option String
  sequence : List String
  last_seal_time : ℚ
  pending_single_jutsu : Option Jutsu
  pending_single_time : ℚ
  matched_jutsu : Option Jutsu
deriving DecidableEq, Repr

/-- The state built by `SequenceTracker.__init__`
(src/cvjutsu/sequence_tracker.py, lines 34-41): empty window, no confirmed
seal, empty sequence, zero timestamps, nothing pending or matched.  The
constructor performs no validation of the configuration constants. -/
def mkTracker : SequenceTracker :=
  { window := []
    last_confirmed := none
    sequence := []
    last_seal_time := 0
    pending_single_jutsu := none
    pending_single_time := 0
    matched_jutsu := none }

/-- One frame of input to `update`: the wall-clock time read at call time and
the (label, confidence) pair. -/
structure Input where
  now : ℚ
  sealv : Option String
  confidence : ℚ
deriving DecidableEq, Repr

/-- Python's `deque(maxlen=maxlen)` append: the new element goes to the back
and the oldest entries are evicted so that at most `maxlen` remain
(src/cvjutsu/sequence_tracker.py, line 67). -/
def dequeAppend (maxlen : ℕ) (w : List (Option String)) (x : Option String) :
    List (Option String) :=
  let w2 := w ++ [x]
  if maxlen < w2.length then w2.drop (w2.length - maxlen) else w2

/-- The vote count of seal `s` in the window: the number of entries equal to
`some s` (the dict counting of src/cvjutsu/sequence_tracker.py, lines 116-119). -/
def countSeal (w : List (Option String)) (s : String) : ℕ :=
  (w.filter (fun e => e = some s)).length

/-- Translation of `SequenceTracker._majority_vote`
(src/cvjutsu/sequence_tracker.py, lines 114-128).  Python's
`max(counts, key=counts.get)` returns the first key, in dict insertion order
(= order of first occurrence in the window), attaining the maximal count; the
left fold below with strict replacement returns exactly that element. -/
def majorityVote (w : List (Option String)) : Option String :=
  match w.filterMap id with
  | [] => none
  | x :: xs =>
    let best := xs.foldl (fun b s => if countSeal w b < countSeal w s then s else b) x
    if w.length / 2 < countSeal w best then some best else none

/-- Python's negative-index slice `l[-n:]` for `n ≥ 0`: for `n = 0` it is the
whole list (`l[-0:] = l[0:]`), otherwise the trailing `n` elements
(src/cvjutsu/sequence_tracker.py, line 137). -/
def pySuffix (l : List String) (n : ℕ) : List String :=
  if n = 0 then l else l.drop (l.length - n)

/-- The guard of the loop of `SequenceTracker._match_jutsu`
(src/cvjutsu/sequence_tracker.py, lines 136-137): the catalog entry is no
longer than the sequence and its seals equal the trailing slice of that
length. -/
def suffixMatches (seq : List String) (jutsu : Jutsu) : Prop :=
  jutsu.seals.length ≤ seq.length ∧ pySuffix seq jutsu.seals.length = jutsu.seals

instance (seq : List String) (jutsu : Jutsu) : Decidable (suffixMatches seq jutsu) :=
  inferInstanceAs (Decidable (jutsu.seals.length ≤ seq.length ∧
    pySuffix seq jutsu.seals.length = jutsu.seals))

/-- The loop body of `SequenceTracker._match_jutsu`
(src/cvjutsu/sequence_tracker.py, lines 133-139), with the accumulator `best`
threaded through the remaining catalog entries. -/
def matchGo (seq : List String) : List Jutsu → Option Jutsu → Option Jutsu
  | [], best => best
  | jutsu :: rest, best =>
    let best2 :=
      if suffixMatches seq jutsu then
        match best with
        | none => some jutsu
        | some b => if b.seals.length < jutsu.seals.length then some jutsu else some b
      else best
    matchGo seq rest best2

/-- Translation of `SequenceTracker._match_jutsu`
(src/cvjutsu/sequence_tracker.py, lines 130-140): longest suffix match over
the catalog, earlier entries winning ties. -/
def matchJutsu (catalog : List Jutsu) (seq : List String) : Option Jutsu :=
  matchGo seq catalog none

/-- The confidence threshold applied before windowing
(src/cvjutsu/sequence_tracker.py, lines 63-64). -/
def thresholdSeal (cfg : Config) (sealv : Option String) (confidence : ℚ) :
    Option String :=
  if sealv ≠ none ∧ confidence < cfg.CONFIDENCE_THRESHOLD then none else sealv

/-- The stable symbol an update computes: the majority vote over the window
after the (possibly confidence-nulled) seal has been pushed
(src/cvjutsu/sequence_tracker.py, lines 62-70). -/
def stableOf (cfg : Config) (t : SequenceTracker) (sealv : Option String)
    (confidence : ℚ) : Option String :=
  majorityVote (dequeAppend cfg.SEAL_HOLD_FRAMES t.window (thresholdSeal cfg sealv confidence))

/-- The new-confirmation block of `update`
(src/cvjutsu/sequence_tracker.py, lines 74-96).  Returns the tracker after the
block, the `seal_just_confirmed` flag, and the jutsu reported immediately (the
length-greater-than-one branch), if any. -/
def confirmStep (cfg : Config) (t : SequenceTracker) (now : ℚ)
    (stable : Option String) : SequenceTracker × Bool × Option Jutsu :=
  match stable with
  | some s =>
    if some s ≠ t.last_confirmed then
      let seq2 := t.sequence ++ [s]
      let t2 : SequenceTracker :=
        { t with last_confirmed := some s, sequence := seq2, last_seal_time := now,
                 pending_single_jutsu := none }
      match matchJutsu cfg.JUTSU_LIST seq2 with
      | some m =>
        if m.seals.length = 1 then
          ({ t2 with pending_single_jutsu := some m, pending_single_time := now },
           true, none)
        else
          ({ t2 with matched_jutsu := some m }, true, some m)
      | none => (t2, true, none)
    else (t, false, none)
  | none => ({ t with last_confirmed := none }, false, none)

/-- The pending single-seal delay block of `update`
(src/cvjutsu/sequence_tracker.py, lines 98-106).  Returns the tracker after
the block and the jutsu fired by the elapsed delay, if any. -/
def pendingStep (cfg : Config) (t : SequenceTracker) (now : ℚ) :
    SequenceTracker × Option Jutsu :=
  match t.pending_single_jutsu with
  | some p =>
    if cfg.SINGLE_SEAL_DELAY_SEC ≤ now - t.pending_single_time then
      ({ t with matched_jutsu := some p, pending_single_jutsu := none }, some p)
    else (t, none)
  | none => (t, none)

/-- The body of `SequenceTracker.update` after the timeout check
(src/cvjutsu/sequence_tracker.py, lines 62-112): threshold, window push,
majority vote, confirmation block, pending block, and snapshot assembly. -/
def updateMain (cfg : Config) (t : SequenceTracker) (now : ℚ)
    (seal0 : Option String) (confidence : ℚ) : SequenceTracker × TrackerState :=
  let sealv := thresholdSeal cfg seal0 confidence
  let window := dequeAppend cfg.SEAL_HOLD_FRAMES t.window sealv
  let t1 : SequenceTracker := { t with window := window }
  let stable := majorityVote window
  let c := confirmStep cfg t1 now stable
  let pr := pendingStep cfg c.1 now
  let reported : Option Jutsu := c.2.2.or pr.2
  (pr.1,
   { current_seal := stable
     current_confidence := if stable = sealv then confidence else 0
     confirmed_sequence := pr.1.sequence
     matched_jutsu := reported.or pr.1.matched_jutsu
     seal_just_confirmed := c.2.1
     jutsu_just_matched := reported.isSome })

/-- The sequence-timeout condition checked at the start of `update`
(src/cvjutsu/sequence_tracker.py, line 57). -/
def timedOut (cfg : Config) (t : SequenceTracker) (now : ℚ) : Bool :=
  decide (t.sequence ≠ [] ∧ cfg.SEQUENCE_TIMEOUT_SEC < now - t.last_seal_time)

/-- The effect of the timeout branch (src/cvjutsu/sequence_tracker.py,
lines 58-60): clear the sequence, the last confirmed seal, and any pending
single-seal jutsu. -/
def clearOnTimeout (t : SequenceTracker) : SequenceTracker :=
  { t with sequence := [], last_confirmed := none, pending_single_jutsu := none }

/-- Translation of `SequenceTracker.update`
(src/cvjutsu/sequence_tracker.py, lines 43-112): the timeout check followed by
the main body. -/
def update (cfg : Config) (t : SequenceTracker) (now : ℚ) (sealv : Option String)
    (confidence : ℚ) : SequenceTracker × TrackerState :=
  updateMain cfg (if timedOut cfg t now then clearOnTimeout t else t) now sealv confidence

/-- Translation of `SequenceTracker.reset`
(src/cvjutsu/sequence_tracker.py, lines 142-148).  Note the source clears the
window, the last confirmed seal, the sequence, the pending jutsu and the
matched jutsu, but leaves both timestamps untouched. -/
def SequenceTracker.reset (t : SequenceTracker) : SequenceTracker :=
  { t with window := [], last_confirmed := none, sequence := [],
           pending_single_jutsu := none, matched_jutsu := none }

/-- One step of the per-frame driver loop: `update` applied to a tracker and
one frame of input. -/
def stepOut (cfg : Config) (p : SequenceTracker × Input) :
    SequenceTracker × TrackerState :=
  update cfg p.1 p.2.now p.2.sealv p.2.confidence

/-- The list of (tracker before the call, frame input) pairs produced by
feeding a list of frames to the tracker in order. -/
def runSteps (cfg : Config) (t : SequenceTracker) : List Input →
    List (SequenceTracker × Input)
  | [] => []
  | i :: rest => (t, i) :: runSteps cfg (stepOut cfg (t, i)).1 rest

/-- The tracker resulting from feeding a list of frames in order. -/
def runTracker (cfg : Config) (t : SequenceTracker) : List Input → SequenceTracker
  | [] => t
  | i :: rest => runTracker cfg (stepOut cfg (t, i)).1 rest

/-- The snapshots returned by feeding a list of frames in order. -/
def runTrace (cfg : Config) (t : SequenceTracker) : List Input → List TrackerState
  | [] => []
  | i :: rest => (stepOut cfg (t, i)).2 :: runTrace cfg (stepOut cfg (t, i)).1 rest

/-- The tracker after the window push of an update
(src/cvjutsu/sequence_tracker.py, line 67): only the window changes. -/
def pushTracker (cfg : Config) (t : SequenceTracker) (sealv : Option String)
    (confidence : ℚ) : SequenceTracker :=
  { t with window := dequeAppend cfg.SEAL_HOLD_FRAMES t.window (thresholdSeal cfg sealv confidence) }

/-- A small configuration used for concrete scenarios: window of one frame, no
confidence bar, a long idle timeout, a two-second single-seal delay, and a
catalog holding only the one-seal `kage_bunshin` entry. -/
def cexConfig : Config :=
  { SEAL_HOLD_FRAMES := 1
    CONFIDENCE_THRESHOLD := 0
    SEQUENCE_TIMEOUT_SEC := 100
    SINGLE_SEAL_DELAY_SEC := 2
    JUTSU_LIST := [kageBunshinJutsu] }

/-- The tracker after a fresh `cexConfig` tracker confirms `hitsuji` at time 0:
the one-seal `kage_bunshin` match is armed as pending with timestamp 0. -/
def armedTracker : SequenceTracker :=
  (update cexConfig mkTracker 0 (some "hitsuji") 1).1

/-- The frame inputs of the spec's concrete scenario at ten frames per second:
`mi` held for five frames, three empty frames, `hitsuji` for five, three empty,
`tora` for five, all with confidence 0.9. -/
def c7inputs : List Input :=
  (List.range 5).map (fun k => ⟨k / 10, some "mi", 9 / 10⟩) ++
  (List.range 3).map (fun k => ⟨(5 + k : ℕ) / 10, none, 0⟩) ++
  (List.range 5).map (fun k => ⟨(8 + k : ℕ) / 10, some "hitsuji", 9 / 10⟩) ++
  (List.range 3).map (fun k => ⟨(13 + k : ℕ) / 10, none, 0⟩) ++
  (List.range 5).map (fun k => ⟨(16 + k : ℕ) / 10, some "tora", 9 / 10⟩)

/-- The real configuration with `SEAL_HOLD_FRAMES` replaced by the malformed
value 0 (so the deque keeps no entries at all). -/
def zeroHoldConfig : Config :=
  { realConfig with SEAL_HOLD_FRAMES := 0 }

/-- Ten frames of a clear, high-confidence `mi` one second apart. -/
def miInputs : List Input :=
  (List.range 10).map (fun k => ⟨(k : ℕ), some "mi", 9 / 10⟩)

/-- The scenario configuration with the malformed negative single-seal delay. -/
def negDelayConfig : Config :=
  { cexConfig with SINGLE_SEAL_DELAY_SEC := -1 }

/-- A tracker steadily holding `mi`: full all-`mi` window, `mi` last confirmed
and already appended once. -/
def heldTracker : SequenceTracker :=
  { window := [some "mi", some "mi", some "mi", some "mi", some "mi"]
    last_confirmed := some "mi"
    sequence := ["mi"]
    last_seal_time := 0
    pending_single_jutsu := none
    pending_single_time := 0
    matched_jutsu := none }

/-- Two further frames of the held `mi` at ten frames per second. -/
def heldInputs : List Input :=
  [⟨1 / 10, some "mi", 9 / 10⟩, ⟨1 / 5, some "mi", 9 / 10⟩]

/-- A tracker whose one-seal sequence is stale by more than the idle timeout. -/
def staleTracker : SequenceTracker :=
  { window := []
    last_confirmed := some "mi"
    sequence := ["mi"]
    last_seal_time := 0
    pending_single_jutsu := none
    pending_single_time := 0
    matched_jutsu := none }

/-- A tracker that has already reported the fireball match. -/
def matchedTracker : SequenceTracker :=
  { window := []
    last_confirmed := none
    sequence := ["mi", "hitsuji", "tora"]
    last_seal_time := 0
    pending_single_jutsu := none
    pending_single_time := 0
    matched_jutsu := some katonJutsu }

/-! ### The pattern matcher: longest suffix match (C1) -/

lemma matchGo_nil (seq : List String) (best : Option Jutsu) :
    matchGo seq [] best = best := rfl

lemma matchGo_cons (seq : List String) (jutsu : Jutsu) (rest : List Jutsu)
    (best : Option Jutsu) :
    matchGo seq (jutsu :: rest) best =
      matchGo seq rest
        (if suffixMatches seq jutsu then
          match best with
          | none => some jutsu
          | some b => if b.seals.length < jutsu.seals.length then some jutsu else some b
         else best) := rfl

/-- The loop of `_match_jutsu`: a `none` result means nothing matched, and a
`some` result is a matching entry (or the initial accumulator) of maximal
seal-sequence length. -/
lemma matchGo_spec (seq : List String) :
    ∀ (l : List Jutsu) (best : Option Jutsu),
      (matchGo seq l best = none → best = none ∧ ∀ j ∈ l, ¬ suffixMatches seq j) ∧
      (∀ x, matchGo seq l best = some x →
        (best = some x ∨ (x ∈ l ∧ suffixMatches seq x)) ∧
        (∀ j ∈ l, suffixMatches seq j → j.seals.length ≤ x.seals.length) ∧
        (∀ b, best = some b → b.seals.length ≤ x.seals.length)) := by
  intro l
  induction l with
  | nil =>
    intro best
    constructor
    · intro h
      rw [matchGo_nil] at h
      exact ⟨h, by simp⟩
    · intro x h
      rw [matchGo_nil] at h
      refine ⟨Or.inl h, by simp, ?_⟩
      intro b hb
      rw [h] at hb
      injection hb with hb
      rw [hb]
  | cons jutsu rest ih =>
    intro best
    rw [matchGo_cons]
    by_cases hm : suffixMatches seq jutsu
    · rw [if_pos hm]
      cases best with
      | none =>
        constructor
        · intro h
          rcases (ih (some jutsu)).1 h with ⟨h1, _⟩
          cases h1
        · intro x hx
          obtain ⟨hd, hmax, hinit⟩ := (ih (some jutsu)).2 x hx
          refine ⟨?_, ?_, ?_⟩
          · rcases hd with h1 | ⟨h1, h2⟩
            · injection h1 with h1
              subst h1
              exact Or.inr ⟨List.mem_cons_self _ _, hm⟩
            · exact Or.inr ⟨List.mem_cons_of_mem _ h1, h2⟩
          · intro j hj hsm
            rcases List.mem_cons.mp hj with h1 | h1
            · subst h1
              exact hinit j rfl
            · exact hmax j h1 hsm
          · intro b hb
            cases hb
      | some b0 =>
        have hred : (match some b0 with
            | none => some jutsu
            | some b => if b.seals.length < jutsu.seals.length then some jutsu else some b) =
            if b0.seals.length < jutsu.seals.length then some jutsu else some b0 := rfl
        rw [hred]
        by_cases hlt : b0.seals.length < jutsu.seals.length
        · rw [if_pos hlt]
          constructor
          · intro h
            rcases (ih (some jutsu)).1 h with ⟨h1, _⟩
            cases h1
          · intro x hx
            obtain ⟨hd, hmax, hinit⟩ := (ih (some jutsu)).2 x hx
            refine ⟨?_, ?_, ?_⟩
            · rcases hd with h1 | ⟨h1, h2⟩
              · injection h1 with h1
                subst h1
                exact Or.inr ⟨List.mem_cons_self _ _, hm⟩
              · exact Or.inr ⟨List.mem_cons_of_mem _ h1, h2⟩
            · intro j hj hsm
              rcases List.mem_cons.mp hj with h1 | h1
              · subst h1
                exact hinit j rfl
              · exact hmax j h1 hsm
            · intro b hb
              injection hb with hb
              subst hb
              exact le_trans (Nat.le_of_lt hlt) (hinit jutsu rfl)
        · rw [if_neg hlt]
          constructor
          · intro h
            rcases (ih (some b0)).1 h with ⟨h1, _⟩
            cases h1
          · intro x hx
            obtain ⟨hd, hmax, hinit⟩ := (ih (some b0)).2 x hx
            have hb0x : b0.seals.length ≤ x.seals.length := hinit b0 rfl
            refine ⟨?_, ?_, ?_⟩
            · rcases hd with h1 | ⟨h1, h2⟩
              · exact Or.inl h1
              · exact Or.inr ⟨List.mem_cons_of_mem _ h1, h2⟩
            · intro j hj hsm
              rcases List.mem_cons.mp hj with h1 | h1
              · subst h1
                exact le_trans (Nat.le_of_not_lt hlt) hb0x
              · exact hmax j h1 hsm
            · intro b hb
              injection hb with hb
              subst hb
              exact hb0x
    · rw [if_neg hm]
      constructor
      · intro h
        obtain ⟨h1, h2⟩ := (ih best).1 h
        refine ⟨h1, ?_⟩
        intro j hj
        rcases List.mem_cons.mp hj with h3 | h3
        · subst h3
          exact hm
        · exact h2 j h3
      · intro x hx
        obtain ⟨hd, hmax, hinit⟩ := (ih best).2 x hx
        refine ⟨?_, ?_, hinit⟩
        · rcases hd with h1 | ⟨h1, h2⟩
          · exact Or.inl h1
          · exact Or.inr ⟨List.mem_cons_of_mem _ h1, h2⟩
        · intro j hj hsm
          rcases List.mem_cons.mp hj with h1 | h1
          · subst h1
            exact absurd hsm hm
          · exact hmax j h1 hsm

/-- For a catalog entry with a nonempty seal sequence, the loop guard of
`_match_jutsu` holds exactly when the entry's seals are a suffix of the
confirmed sequence. -/
lemma suffixMatches_iff_isSuffix {seq : List String} {j : Jutsu}
    (h : j.seals ≠ []) : suffixMatches seq j ↔ j.seals <:+ seq := by
  have hn : j.seals.length ≠ 0 := by
    simpa using h
  constructor
  · rintro ⟨hle, heq⟩
    unfold pySuffix at heq
    rw [if_neg hn] at heq
    rw [← heq]
    exact List.drop_suffix _ _
  · intro hs
    obtain ⟨pre, hpre⟩ := hs
    constructor
    · rw [← hpre, List.length_append]
      omega
    · unfold pySuffix
      rw [if_neg hn, ← hpre, List.length_append]
      have hlen : pre.length + j.seals.length - j.seals.length = pre.length := by omega
      rw [hlen]
      exact List.drop_left pre j.seals

/-- Claim C1: for every confirmed sequence, `_match_jutsu` returns a catalog
entry only if its seal sequence is a trailing suffix of the confirmed sequence
of maximal length among all catalog entries whose seal sequences are such
suffixes, and it returns `none` exactly when no catalog entry's seal sequence
is a suffix of the confirmed sequence.  (The catalog obeys the data-model
invariant that every entry has a nonempty seal sequence.) -/
theorem C1_pattern_matcher_longest_suffix (catalog : List Jutsu) (seq : List String)
    (hne : ∀ j ∈ catalog, j.seals ≠ []) :
    (∀ x, matchJutsu catalog seq = some x →
        x ∈ catalog ∧ x.seals <:+ seq ∧
        ∀ j ∈ catalog, j.seals <:+ seq → j.seals.length ≤ x.seals.length) ∧
    (matchJutsu catalog seq = none → ∀ j ∈ catalog, ¬ j.seals <:+ seq) := by
  constructor
  · intro x hx
    rw [matchJutsu] at hx
    obtain ⟨hd, hmax, _⟩ := (matchGo_spec seq catalog none).2 x hx
    rcases hd with h | ⟨hmem, hsm⟩
    · cases h
    · refine ⟨hmem, (suffixMatches_iff_isSuffix (hne x hmem)).mp hsm, ?_⟩
      intro j hj hs
      exact hmax j hj ((suffixMatches_iff_isSuffix (hne j hj)).mpr hs)
  · intro hn j hj hs
    rw [matchJutsu] at hn
    exact ((matchGo_spec seq catalog none).1 hn).2 j hj
      ((suffixMatches_iff_isSuffix (hne j hj)).mpr hs)

/-- Witness for C1 on the real catalog and the sequence `mi, hitsuji, tora`
(which the length-3 `katon_goukakyu` entry wins over the length-1
`kage_bunshin` entry). -/
theorem C1_pattern_matcher_longest_suffix_witness :
    (∀ j ∈ JUTSU_LIST, j.seals ≠ []) ∧
    ((∀ x, matchJutsu JUTSU_LIST ["mi", "hitsuji", "tora"] = some x →
        x ∈ JUTSU_LIST ∧ x.seals <:+ ["mi", "hitsuji", "tora"] ∧
        ∀ j ∈ JUTSU_LIST, j.seals <:+ ["mi", "hitsuji", "tora"] →
          j.seals.length ≤ x.seals.length) ∧
     (matchJutsu JUTSU_LIST ["mi", "hitsuji", "tora"] = none →
        ∀ j ∈ JUTSU_LIST, ¬ j.seals <:+ ["mi", "hitsuji", "tora"])) :=
  ⟨by decide,
   C1_pattern_matcher_longest_suffix JUTSU_LIST ["mi", "hitsuji", "tora"] (by decide)⟩

/-! ### The stabilizer: strict-majority vote (C4) -/

lemma countSeal_le_length (w : List (Option String)) (s : String) :
    countSeal w s ≤ w.length :=
  List.length_filter_le _ _

/-- Votes for two distinct seals are disjoint window entries. -/
lemma countSeal_add_le (w : List (Option String)) {s s2 : String} (h : s ≠ s2) :
    countSeal w s + countSeal w s2 ≤ w.length := by
  induction w with
  | nil => simp [countSeal]
  | cons a l ih =>
    simp only [countSeal, List.filter_cons, List.length_cons] at ih ⊢
    by_cases h1 : a = some s
    · rw [if_pos (by simpa using h1), if_neg (by simp [h1, h])]
      simp only [List.length_cons]
      omega
    · by_cases h2 : a = some s2
      · rw [if_neg (by simpa using h1), if_pos (by simpa using h2)]
        simp only [List.length_cons]
        omega
      · rw [if_neg (by simpa using h1), if_neg (by simpa using h2)]
        omega

/-- The left fold of `_majority_vote` returns an element whose count dominates
the seed and every folded element. -/
lemma foldl_best_max (w : List (Option String)) (xs : List String) (x : String) :
    countSeal w x ≤
      countSeal w (xs.foldl (fun b s => if countSeal w b < countSeal w s then s else b) x) ∧
    ∀ y ∈ xs,
      countSeal w y ≤
        countSeal w (xs.foldl (fun b s => if countSeal w b < countSeal w s then s else b) x) := by
  induction xs generalizing x with
  | nil => simp
  | cons s xs ih =>
    simp only [List.foldl_cons]
    have hstep : countSeal w x ≤ countSeal w (if countSeal w x < countSeal w s then s else x) ∧
        countSeal w s ≤ countSeal w (if countSeal w x < countSeal w s then s else x) := by
      by_cases hc : countSeal w x < countSeal w s
      · rw [if_pos hc]
        exact ⟨Nat.le_of_lt hc, le_refl _⟩
      · rw [if_neg hc]
        exact ⟨le_refl _, Nat.le_of_not_lt hc⟩
    obtain ⟨ih1, ih2⟩ := ih (if countSeal w x < countSeal w s then s else x)
    refine ⟨le_trans hstep.1 ih1, ?_⟩
    intro y hy
    rcases List.mem_cons.mp hy with h1 | h1
    · subst h1
      exact le_trans hstep.2 ih1
    · exact ih2 y h1

/-- A seal with a positive count occurs among the non-none window entries. -/
lemma countSeal_pos_mem {w : List (Option String)} {s : String}
    (h : 0 < countSeal w s) : s ∈ w.filterMap id := by
  unfold countSeal at h
  obtain ⟨a, ha⟩ := List.exists_mem_of_length_pos h
  have hmem := List.mem_filter.mp ha
  rw [List.mem_filterMap]
  refine ⟨a, hmem.1, ?_⟩
  have h2 : a = some s := by simpa using hmem.2
  rw [h2]
  rfl

/-- `_majority_vote` returns `s` exactly when the votes for `s` are a strict
majority of the window's current length (not its capacity). -/
lemma majorityVote_some_iff (w : List (Option String)) (s : String) :
    majorityVote w = some s ↔ w.length < 2 * countSeal w s := by
  constructor
  · intro h
    unfold majorityVote at h
    rcases hfm : w.filterMap id with _ | ⟨x, xs⟩ <;> rw [hfm] at h
    · cases h
    · dsimp only at h
      by_cases hc : w.length / 2 <
          countSeal w (xs.foldl (fun b s2 => if countSeal w b < countSeal w s2 then s2 else b) x)
      · rw [if_pos hc] at h
        injection h with h
        rw [h] at hc
        have := (Nat.div_lt_iff_lt_mul (by norm_num : 0 < 2)).mp hc
        omega
      · rw [if_neg hc] at h
        cases h
  · intro h
    have hpos : 0 < countSeal w s := by omega
    have hmem : s ∈ w.filterMap id := countSeal_pos_mem hpos
    unfold majorityVote
    rcases hfm : w.filterMap id with _ | ⟨x, xs⟩ <;> rw [hfm] at hmem
    · cases hmem
    · dsimp only
      have hsb : countSeal w s ≤
          countSeal w (xs.foldl (fun b s2 => if countSeal w b < countSeal w s2 then s2 else b) x) := by
        rcases List.mem_cons.mp hmem with h1 | h1
        · subst h1
          exact (foldl_best_max w xs s).1
        · exact (foldl_best_max w xs x).2 s h1
      set best := xs.foldl (fun b s2 => if countSeal w b < countSeal w s2 then s2 else b) x with hbest
      have hb : w.length < 2 * countSeal w best := by omega
      have hbs : best = s := by
        by_contra hne
        have := @countSeal_add_le w best s hne
        omega
      rw [if_pos]
      · rw [hbs]
      · rw [Nat.div_lt_iff_lt_mul (by norm_num : 0 < 2)]
        omega

/-- `_majority_vote` returns `none` exactly when no seal clears the
strict-majority bar (in particular when the window is all none). -/
lemma majorityVote_none_iff (w : List (Option String)) :
    majorityVote w = none ↔ ∀ s, 2 * countSeal w s ≤ w.length := by
  constructor
  · intro h s
    by_contra hc
    push_neg at hc
    have h2 := (majorityVote_some_iff w s).mpr hc
    rw [h] at h2
    cases h2
  · intro h
    rcases hmv : majorityVote w with _ | s
    · rfl
    · have h1 := (majorityVote_some_iff w s).mp hmv
      have h2 := h s
      omega

/-- Claim C4: an update's stable seal is the majority vote over the window
after the (possibly confidence-nulled) frame seal is pushed; a seal is
declared stable exactly when its non-none vote count strictly exceeds half
the window's current length (none entries counted in the length), and the
result is none exactly when no seal clears that bar.  The bar never mentions
the capacity, so the window need not be full. -/
theorem C4_stabilizer_majority (cfg : Config) (t : SequenceTracker) (now : ℚ)
    (sealv : Option String) (conf : ℚ) :
    (update cfg t now sealv conf).2.current_seal = stableOf cfg t sealv conf ∧
    (∀ w s, majorityVote w = some s ↔ w.length < 2 * countSeal w s) ∧
    (∀ w, majorityVote w = none ↔ ∀ s, 2 * countSeal w s ≤ w.length) := by
  refine ⟨?_, majorityVote_some_iff, majorityVote_none_iff⟩
  cases hT : timedOut cfg t now
  · simp only [update, hT, Bool.false_eq_true, if_false]
    rfl
  · simp only [update, hT, if_true]
    rfl

/-! ### Branch equations of the update body -/

lemma pushTracker_last_confirmed (cfg : Config) (t : SequenceTracker)
    (sealv : Option String) (conf : ℚ) :
    (pushTracker cfg t sealv conf).last_confirmed = t.last_confirmed := rfl

lemma pushTracker_sequence (cfg : Config) (t : SequenceTracker)
    (sealv : Option String) (conf : ℚ) :
    (pushTracker cfg t sealv conf).sequence = t.sequence := rfl

lemma pushTracker_pending (cfg : Config) (t : SequenceTracker)
    (sealv : Option String) (conf : ℚ) :
    (pushTracker cfg t sealv conf).pending_single_jutsu = t.pending_single_jutsu := rfl

lemma pushTracker_pending_time (cfg : Config) (t : SequenceTracker)
    (sealv : Option String) (conf : ℚ) :
    (pushTracker cfg t sealv conf).pending_single_time = t.pending_single_time := rfl

lemma pushTracker_matched (cfg : Config) (t : SequenceTracker)
    (sealv : Option String) (conf : ℚ) :
    (pushTracker cfg t sealv conf).matched_jutsu = t.matched_jutsu := rfl

lemma clearOnTimeout_pending (t : SequenceTracker) :
    (clearOnTimeout t).pending_single_jutsu = none := rfl

lemma clearOnTimeout_matched (t : SequenceTracker) :
    (clearOnTimeout t).matched_jutsu = t.matched_jutsu := rfl

lemma stableOf_clearOnTimeout (cfg : Config) (t : SequenceTracker)
    (sealv : Option String) (conf : ℚ) :
    stableOf cfg (clearOnTimeout t) sealv conf = stableOf cfg t sealv conf := rfl

lemma confirmStep_noneStable (cfg : Config) (t : SequenceTracker) (now : ℚ) :
    confirmStep cfg t now none = ({ t with last_confirmed := none }, false, none) := rfl

lemma confirmStep_held (cfg : Config) (t : SequenceTracker) (now : ℚ) {s : String}
    (h : some s = t.last_confirmed) :
    confirmStep cfg t now (some s) = (t, false, none) := by
  simp [confirmStep, ← h]

lemma confirmStep_new_nomatch (cfg : Config) (t : SequenceTracker) (now : ℚ)
    {s : String} (h : some s ≠ t.last_confirmed)
    (hm : matchJutsu cfg.JUTSU_LIST (t.sequence ++ [s]) = none) :
    confirmStep cfg t now (some s) =
      ({ t with last_confirmed := some s, sequence := t.sequence ++ [s],
                last_seal_time := now, pending_single_jutsu := none }, true, none) := by
  simp [confirmStep, h, hm]

lemma confirmStep_new_single (cfg : Config) (t : SequenceTracker) (now : ℚ)
    {s : String} {m : Jutsu} (h : some s ≠ t.last_confirmed)
    (hm : matchJutsu cfg.JUTSU_LIST (t.sequence ++ [s]) = some m)
    (h1 : m.seals.length = 1) :
    confirmStep cfg t now (some s) =
      ({ t with last_confirmed := some s, sequence := t.sequence ++ [s],
                last_seal_time := now, pending_single_jutsu := some m,
                pending_single_time := now }, true, none) := by
  simp [confirmStep, h, hm, h1]

lemma confirmStep_new_multi (cfg : Config) (t : SequenceTracker) (now : ℚ)
    {s : String} {m : Jutsu} (h : some s ≠ t.last_confirmed)
    (hm : matchJutsu cfg.JUTSU_LIST (t.sequence ++ [s]) = some m)
    (h1 : ¬ m.seals.length = 1) :
    confirmStep cfg t now (some s) =
      ({ t with last_confirmed := some s, sequence := t.sequence ++ [s],
                last_seal_time := now, pending_single_jutsu := none,
                matched_jutsu := some m }, true, some m) := by
  simp [confirmStep, h, hm, h1]

lemma pendingStep_nonePending (cfg : Config) (t : SequenceTracker) (now : ℚ)
    (h : t.pending_single_jutsu = none) :
    pendingStep cfg t now = (t, none) := by
  simp [pendingStep, h]

lemma pendingStep_wait (cfg : Config) (t : SequenceTracker) (now : ℚ) {p : Jutsu}
    (h : t.pending_single_jutsu = some p)
    (ht : ¬ cfg.SINGLE_SEAL_DELAY_SEC ≤ now - t.pending_single_time) :
    pendingStep cfg t now = (t, none) := by
  simp [pendingStep, h, ht]

lemma pendingStep_fire (cfg : Config) (t : SequenceTracker) (now : ℚ) {p : Jutsu}
    (h : t.pending_single_jutsu = some p)
    (ht : cfg.SINGLE_SEAL_DELAY_SEC ≤ now - t.pending_single_time) :
    pendingStep cfg t now =
      ({ t with matched_jutsu := some p, pending_single_jutsu := none }, some p) := by
  simp [pendingStep, h, ht]

/-- The update body decomposed into its two blocks and the snapshot assembly. -/
lemma updateMain_cases (cfg : Config) (t : SequenceTracker) (now : ℚ)
    (sealv : Option String) (conf : ℚ) :
    ∃ t2 jc im, confirmStep cfg (pushTracker cfg t sealv conf) now
        (stableOf cfg t sealv conf) = (t2, jc, im) ∧
    ∃ t3 fr, pendingStep cfg t2 now = (t3, fr) ∧
    updateMain cfg t now sealv conf =
      (t3,
       { current_seal := stableOf cfg t sealv conf
         current_confidence :=
           if stableOf cfg t sealv conf = thresholdSeal cfg sealv conf then conf else 0
         confirmed_sequence := t3.sequence
         matched_jutsu := (im.or fr).or t3.matched_jutsu
         seal_just_confirmed := jc
         jutsu_just_matched := (im.or fr).isSome }) :=
  ⟨_, _, _, rfl, _, _, rfl, rfl⟩

lemma update_eq_timedOut (cfg : Config) (t : SequenceTracker) (now : ℚ)
    (sealv : Option String) (conf : ℚ) (h : timedOut cfg t now = true) :
    update cfg t now sealv conf = updateMain cfg (clearOnTimeout t) now sealv conf := by
  simp [update, h]

lemma update_eq_live (cfg : Config) (t : SequenceTracker) (now : ℚ)
    (sealv : Option String) (conf : ℚ) (h : timedOut cfg t now = false) :
    update cfg t now sealv conf = updateMain cfg t now sealv conf := by
  simp [update, h]

lemma pendingStep_pending_eq (cfg : Config) (t : SequenceTracker) (now : ℚ)
    (q : Jutsu) (h : (pendingStep cfg t now).1.pending_single_jutsu = some q) :
    (pendingStep cfg t now).1 = t ∧ t.pending_single_jutsu = some q := by
  rcases h2 : t.pending_single_jutsu with _ | p
  · rw [pendingStep_nonePending cfg t now h2] at h ⊢
    rw [h2] at h
    cases h
  · by_cases ht : cfg.SINGLE_SEAL_DELAY_SEC ≤ now - t.pending_single_time
    · rw [pendingStep_fire cfg t now h2 ht] at h
      simp at h
    · rw [pendingStep_wait cfg t now h2 ht] at h ⊢
      have h3 : t.pending_single_jutsu = some q := h
      rw [h2] at h3
      exact ⟨rfl, h3⟩

lemma pendingStep_fired (cfg : Config) (t : SequenceTracker) (now : ℚ)
    (p : Jutsu) (h : (pendingStep cfg t now).2 = some p) :
    t.pending_single_jutsu = some p ∧
    cfg.SINGLE_SEAL_DELAY_SEC ≤ now - t.pending_single_time ∧
    (pendingStep cfg t now).1.matched_jutsu = some p ∧
    (pendingStep cfg t now).1.pending_single_jutsu = none := by
  rcases h2 : t.pending_single_jutsu with _ | p0
  · rw [pendingStep_nonePending cfg t now h2] at h
    cases h
  · by_cases ht : cfg.SINGLE_SEAL_DELAY_SEC ≤ now - t.pending_single_time
    · rw [pendingStep_fire cfg t now h2 ht] at h ⊢
      injection h with h
      subst h
      exact ⟨rfl, ht, rfl, rfl⟩
    · rw [pendingStep_wait cfg t now h2 ht] at h
      cases h

lemma pendingStep_notfired (cfg : Config) (t : SequenceTracker) (now : ℚ)
    (h : (pendingStep cfg t now).2 = none) :
    (pendingStep cfg t now).1 = t := by
  rcases h2 : t.pending_single_jutsu with _ | p0
  · rw [pendingStep_nonePending cfg t now h2]
  · by_cases ht : cfg.SINGLE_SEAL_DELAY_SEC ≤ now - t.pending_single_time
    · rw [pendingStep_fire cfg t now h2 ht] at h
      cases h
    · rw [pendingStep_wait cfg t now h2 ht]

lemma pendingStep_sequence (cfg : Config) (t : SequenceTracker) (now : ℚ) :
    (pendingStep cfg t now).1.sequence = t.sequence := by
  unfold pendingStep
  split
  · split <;> rfl
  · rfl

lemma pendingStep_last_confirmed (cfg : Config) (t : SequenceTracker) (now : ℚ) :
    (pendingStep cfg t now).1.last_confirmed = t.last_confirmed := by
  unfold pendingStep
  split
  · split <;> rfl
  · rfl

/-- Any pending single-seal match leaving an update was either freshly armed
by a new confirmation of this very update (timestamped `now`) or carried over
unchanged from before the update by a non-confirming update. -/
lemma updateMain_pending_cases (cfg : Config) (u : SequenceTracker) (now : ℚ)
    (sealv : Option String) (conf : ℚ) :
    ∀ q, (updateMain cfg u now sealv conf).1.pending_single_jutsu = some q →
      ((updateMain cfg u now sealv conf).1.pending_single_time = now ∧
        (updateMain cfg u now sealv conf).2.seal_just_confirmed = true) ∨
      (u.pending_single_jutsu = some q ∧
        (updateMain cfg u now sealv conf).1.pending_single_time = u.pending_single_time ∧
        (updateMain cfg u now sealv conf).2.seal_just_confirmed = false) := by
  obtain ⟨t2, jc, im, hc, t3, fr, hp, heq⟩ := updateMain_cases cfg u now sealv conf
  intro q hq
  rw [heq] at hq ⊢
  dsimp only at hq ⊢
  have hps : (pendingStep cfg t2 now).1 = t3 := by rw [hp]
  have hq2 : (pendingStep cfg t2 now).1.pending_single_jutsu = some q := by
    rw [hps]
    exact hq
  obtain ⟨ht3, ht2p⟩ := pendingStep_pending_eq cfg t2 now q hq2
  have ht32 : t3 = t2 := by
    rw [← hps, ht3]
  subst ht32
  rcases hst : stableOf cfg u sealv conf with _ | s
  · rw [hst, confirmStep_noneStable] at hc
    simp only [Prod.mk.injEq] at hc
    obtain ⟨h2, hjc, him⟩ := hc
    subst hjc
    right
    refine ⟨?_, ?_, rfl⟩
    · rw [← h2] at ht2p
      simpa [pushTracker_pending] using ht2p
    · rw [← h2]
      rfl
  · by_cases hheld : some s = (pushTracker cfg u sealv conf).last_confirmed
    · rw [hst, confirmStep_held cfg _ now hheld] at hc
      simp only [Prod.mk.injEq] at hc
      obtain ⟨h2, hjc, him⟩ := hc
      subst hjc
      right
      refine ⟨?_, ?_, rfl⟩
      · rw [← h2] at ht2p
        simpa [pushTracker_pending] using ht2p
      · rw [← h2]
        rfl
    · rcases hm : matchJutsu cfg.JUTSU_LIST ((pushTracker cfg u sealv conf).sequence ++ [s])
        with _ | m
      · rw [hst, confirmStep_new_nomatch cfg _ now hheld hm] at hc
        simp only [Prod.mk.injEq] at hc
        obtain ⟨h2, hjc, him⟩ := hc
        rw [← h2] at ht2p
        simp at ht2p
      · by_cases h1 : m.seals.length = 1
        · rw [hst, confirmStep_new_single cfg _ now hheld hm h1] at hc
          simp only [Prod.mk.injEq] at hc
          obtain ⟨h2, hjc, him⟩ := hc
          subst hjc
          left
          refine ⟨?_, rfl⟩
          rw [← h2]
        · rw [hst, confirmStep_new_multi cfg _ now hheld hm h1] at hc
          simp only [Prod.mk.injEq] at hc
          obtain ⟨h2, hjc, him⟩ := hc
          rw [← h2] at ht2p
          simp at ht2p

/-- Lift of `updateMain_pending_cases` through the timeout check. -/
lemma update_pending_cases (cfg : Config) (t : SequenceTracker) (now : ℚ)
    (sealv : Option String) (conf : ℚ) :
    ∀ q, (update cfg t now sealv conf).1.pending_single_jutsu = some q →
      ((update cfg t now sealv conf).1.pending_single_time = now ∧
        (update cfg t now sealv conf).2.seal_just_confirmed = true) ∨
      (t.pending_single_jutsu = some q ∧
        (update cfg t now sealv conf).1.pending_single_time = t.pending_single_time ∧
        (update cfg t now sealv conf).2.seal_just_confirmed = false) := by
  intro q hq
  cases hT : timedOut cfg t now
  · rw [update_eq_live cfg t now sealv conf hT] at hq ⊢
    exact updateMain_pending_cases cfg t now sealv conf q hq
  · rw [update_eq_timedOut cfg t now sealv conf hT] at hq ⊢
    rcases updateMain_pending_cases cfg (clearOnTimeout t) now sealv conf q hq with h | h
    · exact Or.inl h
    · obtain ⟨h1, _⟩ := h
      rw [clearOnTimeout_pending] at h1
      cases h1

/-- A snapshot of an update reports a length-1 catalog entry only via the
pending-delay block: either the entry was pending before the update and the
delay had elapsed, or (only possible with a nonpositive configured delay) the
update's own new confirmation armed it and it fired immediately. -/
lemma updateMain_len1_report (cfg : Config) (u : SequenceTracker) (now : ℚ)
    (sealv : Option String) (conf : ℚ) :
    ∀ p : Jutsu, p.seals.length = 1 →
      (updateMain cfg u now sealv conf).2.jutsu_just_matched = true →
      (updateMain cfg u now sealv conf).2.matched_jutsu = some p →
      (u.pending_single_jutsu = some p ∧
        cfg.SINGLE_SEAL_DELAY_SEC ≤ now - u.pending_single_time ∧
        (updateMain cfg u now sealv conf).2.seal_just_confirmed = false) ∨
      ((updateMain cfg u now sealv conf).2.seal_just_confirmed = true ∧
        cfg.SINGLE_SEAL_DELAY_SEC ≤ 0) := by
  obtain ⟨t2, jc, im, hc, t3, fr, hp, heq⟩ := updateMain_cases cfg u now sealv conf
  intro p hp1 hjm hmj
  rw [heq] at hjm hmj ⊢
  dsimp only at hjm hmj ⊢
  rcases hst : stableOf cfg u sealv conf with _ | s
  · rw [hst, confirmStep_noneStable] at hc
    simp only [Prod.mk.injEq] at hc
    obtain ⟨h2, hjc, him⟩ := hc
    subst hjc
    subst him
    have ht2q : t2.pending_single_jutsu = u.pending_single_jutsu := by
      rw [← h2]
      simp [pushTracker_pending]
    have ht2time : t2.pending_single_time = u.pending_single_time := by
      rw [← h2]
      simp [pushTracker_pending_time]
    rcases hup : u.pending_single_jutsu with _ | p0
    · have hno : t2.pending_single_jutsu = none := by rw [ht2q, hup]
      rw [pendingStep_nonePending cfg t2 now hno] at hp
      simp only [Prod.mk.injEq] at hp
      obtain ⟨h3, hfr⟩ := hp
      rw [← hfr] at hjm
      exact Bool.noConfusion (show false = true from hjm)
    · by_cases hd : cfg.SINGLE_SEAL_DELAY_SEC ≤ now - t2.pending_single_time
      · have hsome : t2.pending_single_jutsu = some p0 := by rw [ht2q, hup]
        rw [pendingStep_fire cfg t2 now hsome hd] at hp
        simp only [Prod.mk.injEq] at hp
        obtain ⟨h3, hfr⟩ := hp
        rw [← hfr] at hmj
        have hmj2 : (some p0 : Option Jutsu) = some p := hmj
        injection hmj2 with hmj2
        subst hmj2
        left
        refine ⟨rfl, ?_, rfl⟩
        rw [← ht2time]
        exact hd
      · have hsome : t2.pending_single_jutsu = some p0 := by rw [ht2q, hup]
        rw [pendingStep_wait cfg t2 now hsome hd] at hp
        simp only [Prod.mk.injEq] at hp
        obtain ⟨h3, hfr⟩ := hp
        rw [← hfr] at hjm
        exact Bool.noConfusion (show false = true from hjm)
  · by_cases hheld : some s = (pushTracker cfg u sealv conf).last_confirmed
    · rw [hst, confirmStep_held cfg _ now hheld] at hc
      simp only [Prod.mk.injEq] at hc
      obtain ⟨h2, hjc, him⟩ := hc
      subst hjc
      subst him
      have ht2q : t2.pending_single_jutsu = u.pending_single_jutsu := by
        rw [← h2]
        simp [pushTracker_pending]
      have ht2time : t2.pending_single_time = u.pending_single_time := by
        rw [← h2]
        simp [pushTracker_pending_time]
      rcases hup : u.pending_single_jutsu with _ | p0
      · have hno : t2.pending_single_jutsu = none := by rw [ht2q, hup]
        rw [pendingStep_nonePending cfg t2 now hno] at hp
        simp only [Prod.mk.injEq] at hp
        obtain ⟨h3, hfr⟩ := hp
        rw [← hfr] at hjm
        exact Bool.noConfusion (show false = true from hjm)
      · by_cases hd : cfg.SINGLE_SEAL_DELAY_SEC ≤ now - t2.pending_single_time
        · have hsome : t2.pending_single_jutsu = some p0 := by rw [ht2q, hup]
          rw [pendingStep_fire cfg t2 now hsome hd] at hp
          simp only [Prod.mk.injEq] at hp
          obtain ⟨h3, hfr⟩ := hp
          rw [← hfr] at hmj
          have hmj2 : (some p0 : Option Jutsu) = some p := hmj
          injection hmj2 with hmj2
          subst hmj2
          left
          refine ⟨rfl, ?_, rfl⟩
          rw [← ht2time]
          exact hd
        · have hsome : t2.pending_single_jutsu = some p0 := by rw [ht2q, hup]
          rw [pendingStep_wait cfg t2 now hsome hd] at hp
          simp only [Prod.mk.injEq] at hp
          obtain ⟨h3, hfr⟩ := hp
          rw [← hfr] at hjm
          exact Bool.noConfusion (show false = true from hjm)
    · rcases hm : matchJutsu cfg.JUTSU_LIST ((pushTracker cfg u sealv conf).sequence ++ [s])
        with _ | m
      · rw [hst, confirmStep_new_nomatch cfg _ now hheld hm] at hc
        simp only [Prod.mk.injEq] at hc
        obtain ⟨h2, hjc, him⟩ := hc
        subst hjc
        subst him
        have hno : t2.pending_single_jutsu = none := by
          rw [← h2]
        rw [pendingStep_nonePending cfg t2 now hno] at hp
        simp only [Prod.mk.injEq] at hp
        obtain ⟨h3, hfr⟩ := hp
        rw [← hfr] at hjm
        exact Bool.noConfusion (show false = true from hjm)
      · by_cases h1 : m.seals.length = 1
        · rw [hst, confirmStep_new_single cfg _ now hheld hm h1] at hc
          simp only [Prod.mk.injEq] at hc
          obtain ⟨h2, hjc, him⟩ := hc
          subst hjc
          subst him
          have hsome : t2.pending_single_jutsu = some m := by
            rw [← h2]
          have htime : t2.pending_single_time = now := by
            rw [← h2]
          by_cases hd : cfg.SINGLE_SEAL_DELAY_SEC ≤ now - t2.pending_single_time
          · rw [pendingStep_fire cfg t2 now hsome hd] at hp
            simp only [Prod.mk.injEq] at hp
            obtain ⟨h3, hfr⟩ := hp
            rw [htime] at hd
            right
            refine ⟨rfl, ?_⟩
            simpa using hd
          · rw [pendingStep_wait cfg t2 now hsome hd] at hp
            simp only [Prod.mk.injEq] at hp
            obtain ⟨h3, hfr⟩ := hp
            rw [← hfr] at hjm
            exact Bool.noConfusion (show false = true from hjm)
        · rw [hst, confirmStep_new_multi cfg _ now hheld hm h1] at hc
          simp only [Prod.mk.injEq] at hc
          obtain ⟨h2, hjc, him⟩ := hc
          subst hjc
          subst him
          have hmj2 : (some m : Option Jutsu) = some p := hmj
          injection hmj2 with hmj2
          subst hmj2
          exact absurd hp1 h1

/-- Lift of `updateMain_len1_report` through the timeout check. -/
lemma update_len1_report (cfg : Config) (t : SequenceTracker) (now : ℚ)
    (sealv : Option String) (conf : ℚ) :
    ∀ p : Jutsu, p.seals.length = 1 →
      (update cfg t now sealv conf).2.jutsu_just_matched = true →
      (update cfg t now sealv conf).2.matched_jutsu = some p →
      (t.pending_single_jutsu = some p ∧
        cfg.SINGLE_SEAL_DELAY_SEC ≤ now - t.pending_single_time ∧
        (update cfg t now sealv conf).2.seal_just_confirmed = false) ∨
      ((update cfg t now sealv conf).2.seal_just_confirmed = true ∧
        cfg.SINGLE_SEAL_DELAY_SEC ≤ 0) := by
  intro p hp1 hjm hmj
  cases hT : timedOut cfg t now
  · rw [update_eq_live cfg t now sealv conf hT] at hjm hmj ⊢
    exact updateMain_len1_report cfg t now sealv conf p hp1 hjm hmj
  · rw [update_eq_timedOut cfg t now sealv conf hT] at hjm hmj ⊢
    rcases updateMain_len1_report cfg (clearOnTimeout t) now sealv conf p hp1 hjm hmj with h | h
    · obtain ⟨h1, _⟩ := h
      rw [clearOnTimeout_pending] at h1
      cases h1
    · exact Or.inr h

lemma confirmStep_im_cases (cfg : Config) (u : SequenceTracker) (now : ℚ)
    (st : Option String) :
    (confirmStep cfg u now st).2.2 = none ∨
    (∃ m, (confirmStep cfg u now st).2.2 = some m ∧
      (confirmStep cfg u now st).1.matched_jutsu = some m ∧
      (confirmStep cfg u now st).1.pending_single_jutsu = none) := by
  rcases st with _ | s
  · left
    rfl
  · by_cases h : some s = u.last_confirmed
    · rw [confirmStep_held cfg u now h]
      left
      rfl
    · rcases hm : matchJutsu cfg.JUTSU_LIST (u.sequence ++ [s]) with _ | m
      · rw [confirmStep_new_nomatch cfg u now h hm]
        left
        rfl
      · by_cases h1 : m.seals.length = 1
        · rw [confirmStep_new_single cfg u now h hm h1]
          left
          rfl
        · rw [confirmStep_new_multi cfg u now h hm h1]
          right
          exact ⟨m, rfl, rfl, rfl⟩

lemma confirmStep_matched_of_im_none (cfg : Config) (u : SequenceTracker) (now : ℚ)
    (st : Option String) (h : (confirmStep cfg u now st).2.2 = none) :
    (confirmStep cfg u now st).1.matched_jutsu = u.matched_jutsu := by
  rcases st with _ | s
  · rfl
  · by_cases hh : some s = u.last_confirmed
    · rw [confirmStep_held cfg u now hh]
    · rcases hm : matchJutsu cfg.JUTSU_LIST (u.sequence ++ [s]) with _ | m
      · rw [confirmStep_new_nomatch cfg u now hh hm]
      · by_cases h1 : m.seals.length = 1
        · rw [confirmStep_new_single cfg u now hh hm h1]
        · rw [confirmStep_new_multi cfg u now hh hm h1] at h
          cases h

/-- A reporting update writes the reported jutsu both into the snapshot and
into the sticky `_matched_jutsu` field. -/
lemma updateMain_report_sets_matched (cfg : Config) (u : SequenceTracker) (now : ℚ)
    (sealv : Option String) (conf : ℚ)
    (h : (updateMain cfg u now sealv conf).2.jutsu_just_matched = true) :
    ∃ r, (updateMain cfg u now sealv conf).2.matched_jutsu = some r ∧
      (updateMain cfg u now sealv conf).1.matched_jutsu = some r := by
  obtain ⟨t2, jc, im, hc, t3, fr, hp, heq⟩ := updateMain_cases cfg u now sealv conf
  rw [heq] at h ⊢
  dsimp only at h ⊢
  have hc22 : im = (confirmStep cfg (pushTracker cfg u sealv conf) now
      (stableOf cfg u sealv conf)).2.2 := by
    rw [hc]
  have hc1 : t2 = (confirmStep cfg (pushTracker cfg u sealv conf) now
      (stableOf cfg u sealv conf)).1 := by
    rw [hc]
  rcases confirmStep_im_cases cfg (pushTracker cfg u sealv conf) now
      (stableOf cfg u sealv conf) with hcase | ⟨m, him, hmm, hpn⟩
  · rw [← hc22] at hcase
    subst hcase
    have hf : fr.isSome = true := h
    rcases hfr : fr with _ | r
    · rw [hfr] at hf
      exact Bool.noConfusion hf
    · refine ⟨r, rfl, ?_⟩
      have h2 := pendingStep_fired cfg t2 now r (by rw [hp, hfr])
      have h3 : (pendingStep cfg t2 now).1 = t3 := by rw [hp]
      rw [h3] at h2
      exact h2.2.2.1
  · rw [← hc22] at him
    subst him
    rw [← hc1] at hmm hpn
    rw [pendingStep_nonePending cfg t2 now hpn] at hp
    simp only [Prod.mk.injEq] at hp
    obtain ⟨h3, hfr⟩ := hp
    subst h3
    exact ⟨m, rfl, hmm⟩

/-- A non-reporting update carries the sticky `_matched_jutsu` field into the
snapshot unchanged and leaves it unchanged in the tracker. -/
lemma updateMain_noreport_matched (cfg : Config) (u : SequenceTracker) (now : ℚ)
    (sealv : Option String) (conf : ℚ)
    (h : (updateMain cfg u now sealv conf).2.jutsu_just_matched = false) :
    (updateMain cfg u now sealv conf).2.matched_jutsu = u.matched_jutsu ∧
    (updateMain cfg u now sealv conf).1.matched_jutsu = u.matched_jutsu := by
  obtain ⟨t2, jc, im, hc, t3, fr, hp, heq⟩ := updateMain_cases cfg u now sealv conf
  rw [heq] at h ⊢
  dsimp only at h ⊢
  rcases him : im with _ | m
  case some =>
    rw [him] at h
    exact Bool.noConfusion (show true = false from h)
  case none =>
  subst him
  rcases hfr : fr with _ | r
  case some =>
    rw [hfr] at h
    exact Bool.noConfusion (show true = false from h)
  case none =>
  subst hfr
  have ht3 : (pendingStep cfg t2 now).1 = t2 := pendingStep_notfired cfg t2 now (by rw [hp])
  have h3 : (pendingStep cfg t2 now).1 = t3 := by rw [hp]
  have ht32 : t3 = t2 := by rw [← h3, ht3]
  subst ht32
  have hcnone : (confirmStep cfg (pushTracker cfg u sealv conf) now
      (stableOf cfg u sealv conf)).2.2 = none := by
    rw [hc]
  have hmm := confirmStep_matched_of_im_none cfg (pushTracker cfg u sealv conf) now
    (stableOf cfg u sealv conf) hcnone
  have hc1 : (confirmStep cfg (pushTracker cfg u sealv conf) now
      (stableOf cfg u sealv conf)).1 = t3 := by
    rw [hc]
  rw [hc1, pushTracker_matched] at hmm
  exact ⟨hmm, hmm⟩

lemma update_report_sets_matched (cfg : Config) (t : SequenceTracker) (now : ℚ)
    (sealv : Option String) (conf : ℚ)
    (h : (update cfg t now sealv conf).2.jutsu_just_matched = true) :
    ∃ r, (update cfg t now sealv conf).2.matched_jutsu = some r ∧
      (update cfg t now sealv conf).1.matched_jutsu = some r := by
  cases hT : timedOut cfg t now
  · rw [update_eq_live cfg t now sealv conf hT] at h ⊢
    exact updateMain_report_sets_matched cfg t now sealv conf h
  · rw [update_eq_timedOut cfg t now sealv conf hT] at h ⊢
    exact updateMain_report_sets_matched cfg (clearOnTimeout t) now sealv conf h

lemma update_noreport_matched (cfg : Config) (t : SequenceTracker) (now : ℚ)
    (sealv : Option String) (conf : ℚ)
    (h : (update cfg t now sealv conf).2.jutsu_just_matched = false) :
    (update cfg t now sealv conf).2.matched_jutsu = t.matched_jutsu ∧
    (update cfg t now sealv conf).1.matched_jutsu = t.matched_jutsu := by
  cases hT : timedOut cfg t now
  · rw [update_eq_live cfg t now sealv conf hT] at h ⊢
    exact updateMain_noreport_matched cfg t now sealv conf h
  · rw [update_eq_timedOut cfg t now sealv conf hT] at h ⊢
    have h2 := updateMain_noreport_matched cfg (clearOnTimeout t) now sealv conf h
    rw [clearOnTimeout_matched] at h2
    exact h2

/-- A new confirmation re-stamps any surviving pending match at the current
time (the old arming never survives a confirmation). -/
lemma update_confirmed_pending_now (cfg : Config) (t : SequenceTracker) (now : ℚ)
    (sealv : Option String) (conf : ℚ)
    (hcf : (update cfg t now sealv conf).2.seal_just_confirmed = true) :
    ∀ q, (update cfg t now sealv conf).1.pending_single_jutsu = some q →
      (update cfg t now sealv conf).1.pending_single_time = now := by
  intro q hq
  rcases update_pending_cases cfg t now sealv conf q hq with h | h
  · exact h.1
  · rw [h.2.2] at hcf
    exact Bool.noConfusion hcf

/-- A held seal (stable seal equal to the last confirmed one) causes no append
and no confirmation flag. -/
lemma update_held (cfg : Config) (t : SequenceTracker) (now : ℚ)
    (sealv : Option String) (conf : ℚ) (hT : timedOut cfg t now = false)
    (hs : stableOf cfg t sealv conf = t.last_confirmed)
    (hn : t.last_confirmed ≠ none) :
    (update cfg t now sealv conf).1.sequence = t.sequence ∧
    (update cfg t now sealv conf).1.last_confirmed = t.last_confirmed ∧
    (update cfg t now sealv conf).2.seal_just_confirmed = false := by
  rw [update_eq_live cfg t now sealv conf hT]
  obtain ⟨t2, jc, im, hc, t3, fr, hp, heq⟩ := updateMain_cases cfg t now sealv conf
  rw [heq]
  dsimp only
  rcases hlc : t.last_confirmed with _ | s
  · exact absurd hlc hn
  · rw [hlc] at hs
    rw [hs] at hc
    have hheld : some s = (pushTracker cfg t sealv conf).last_confirmed := by
      rw [pushTracker_last_confirmed, hlc]
    rw [confirmStep_held cfg _ now hheld] at hc
    simp only [Prod.mk.injEq] at hc
    obtain ⟨h2, hjc, him⟩ := hc
    subst hjc
    subst him
    have h3 : (pendingStep cfg t2 now).1 = t3 := by rw [hp]
    refine ⟨?_, ?_, rfl⟩
    · rw [← h3, pendingStep_sequence, ← h2, pushTracker_sequence]
    · rw [← h3, pendingStep_last_confirmed, ← h2, pushTracker_last_confirmed, hlc]

/-- A stable seal of none resets the last-confirmed marker and causes no
append and no confirmation flag. -/
lemma update_stable_none (cfg : Config) (t : SequenceTracker) (now : ℚ)
    (sealv : Option String) (conf : ℚ) (hT : timedOut cfg t now = false)
    (hs : stableOf cfg t sealv conf = none) :
    (update cfg t now sealv conf).1.last_confirmed = none ∧
    (update cfg t now sealv conf).1.sequence = t.sequence ∧
    (update cfg t now sealv conf).2.seal_just_confirmed = false := by
  rw [update_eq_live cfg t now sealv conf hT]
  obtain ⟨t2, jc, im, hc, t3, fr, hp, heq⟩ := updateMain_cases cfg t now sealv conf
  rw [heq]
  dsimp only
  rw [hs, confirmStep_noneStable] at hc
  simp only [Prod.mk.injEq] at hc
  obtain ⟨h2, hjc, him⟩ := hc
  subst hjc
  subst him
  have h3 : (pendingStep cfg t2 now).1 = t3 := by rw [hp]
  refine ⟨?_, ?_, rfl⟩
  · rw [← h3, pendingStep_last_confirmed, ← h2]
  · rw [← h3, pendingStep_sequence, ← h2]
    simp [pushTracker_sequence]

/-- A raised confirmation flag means the stable seal was non-none, differed
from the last confirmed seal, and was appended to the sequence. -/
lemma update_confirm_chars (cfg : Config) (t : SequenceTracker) (now : ℚ)
    (sealv : Option String) (conf : ℚ) (hT : timedOut cfg t now = false)
    (hcf : (update cfg t now sealv conf).2.seal_just_confirmed = true) :
    ∃ s, stableOf cfg t sealv conf = some s ∧ some s ≠ t.last_confirmed ∧
      (update cfg t now sealv conf).1.sequence = t.sequence ++ [s] := by
  rw [update_eq_live cfg t now sealv conf hT] at hcf ⊢
  obtain ⟨t2, jc, im, hc, t3, fr, hp, heq⟩ := updateMain_cases cfg t now sealv conf
  rw [heq] at hcf ⊢
  dsimp only at hcf ⊢
  rcases hst : stableOf cfg t sealv conf with _ | s
  · rw [hst, confirmStep_noneStable] at hc
    simp only [Prod.mk.injEq] at hc
    obtain ⟨h2, hjc, him⟩ := hc
    rw [← hjc] at hcf
    exact Bool.noConfusion hcf
  · by_cases hheld : some s = (pushTracker cfg t sealv conf).last_confirmed
    · rw [hst, confirmStep_held cfg _ now hheld] at hc
      simp only [Prod.mk.injEq] at hc
      obtain ⟨h2, hjc, him⟩ := hc
      rw [← hjc] at hcf
      exact Bool.noConfusion hcf
    · have hne : some s ≠ t.last_confirmed := by
        rw [pushTracker_last_confirmed] at hheld
        exact hheld
      refine ⟨s, rfl, hne, ?_⟩
      have h3 : (pendingStep cfg t2 now).1 = t3 := by rw [hp]
      rcases hm : matchJutsu cfg.JUTSU_LIST
          ((pushTracker cfg t sealv conf).sequence ++ [s]) with _ | m
      · rw [hst, confirmStep_new_nomatch cfg _ now hheld hm] at hc
        simp only [Prod.mk.injEq] at hc
        obtain ⟨h2, hjc, him⟩ := hc
        rw [← h3, pendingStep_sequence, ← h2]
        simp [pushTracker_sequence]
      · by_cases h1 : m.seals.length = 1
        · rw [hst, confirmStep_new_single cfg _ now hheld hm h1] at hc
          simp only [Prod.mk.injEq] at hc
          obtain ⟨h2, hjc, him⟩ := hc
          rw [← h3, pendingStep_sequence, ← h2]
          simp [pushTracker_sequence]
        · rw [hst, confirmStep_new_multi cfg _ now hheld hm h1] at hc
          simp only [Prod.mk.injEq] at hc
          obtain ⟨h2, hjc, him⟩ := hc
          rw [← h3, pendingStep_sequence, ← h2]
          simp [pushTracker_sequence]

/-- An update leaves the sequence unchanged or appends exactly one seal. -/
lemma updateMain_seq_extend (cfg : Config) (u : SequenceTracker) (now : ℚ)
    (sealv : Option String) (conf : ℚ) :
    (updateMain cfg u now sealv conf).1.sequence = u.sequence ∨
    ∃ s, (updateMain cfg u now sealv conf).1.sequence = u.sequence ++ [s] := by
  obtain ⟨t2, jc, im, hc, t3, fr, hp, heq⟩ := updateMain_cases cfg u now sealv conf
  rw [heq]
  dsimp only
  have h3 : (pendingStep cfg t2 now).1 = t3 := by rw [hp]
  rcases hst : stableOf cfg u sealv conf with _ | s
  · rw [hst, confirmStep_noneStable] at hc
    simp only [Prod.mk.injEq] at hc
    obtain ⟨h2, hjc, him⟩ := hc
    left
    rw [← h3, pendingStep_sequence, ← h2]
    simp [pushTracker_sequence]
  · by_cases hheld : some s = (pushTracker cfg u sealv conf).last_confirmed
    · rw [hst, confirmStep_held cfg _ now hheld] at hc
      simp only [Prod.mk.injEq] at hc
      obtain ⟨h2, hjc, him⟩ := hc
      left
      rw [← h3, pendingStep_sequence, ← h2, pushTracker_sequence]
    · right
      refine ⟨s, ?_⟩
      rcases hm : matchJutsu cfg.JUTSU_LIST
          ((pushTracker cfg u sealv conf).sequence ++ [s]) with _ | m
      · rw [hst, confirmStep_new_nomatch cfg _ now hheld hm] at hc
        simp only [Prod.mk.injEq] at hc
        obtain ⟨h2, hjc, him⟩ := hc
        rw [← h3, pendingStep_sequence, ← h2]
        simp [pushTracker_sequence]
      · by_cases h1 : m.seals.length = 1
        · rw [hst, confirmStep_new_single cfg _ now hheld hm h1] at hc
          simp only [Prod.mk.injEq] at hc
          obtain ⟨h2, hjc, him⟩ := hc
          rw [← h3, pendingStep_sequence, ← h2]
          simp [pushTracker_sequence]
        · rw [hst, confirmStep_new_multi cfg _ now hheld hm h1] at hc
          simp only [Prod.mk.injEq] at hc
          obtain ⟨h2, hjc, him⟩ := hc
          rw [← h3, pendingStep_sequence, ← h2]
          simp [pushTracker_sequence]

/-- A new confirmation whose updated sequence selects a length-1 catalog entry
arms it as pending with the current timestamp and, since the configured delay
is positive, does not report it in the same snapshot. -/
lemma updateMain_arming (cfg : Config) (u : SequenceTracker) (now : ℚ)
    (sealv : Option String) (conf : ℚ) (j : Jutsu)
    (hd : 0 < cfg.SINGLE_SEAL_DELAY_SEC)
    (hcf : (updateMain cfg u now sealv conf).2.seal_just_confirmed = true)
    (hm : matchJutsu cfg.JUTSU_LIST
      (updateMain cfg u now sealv conf).2.confirmed_sequence = some j)
    (h1 : j.seals.length = 1) :
    (updateMain cfg u now sealv conf).2.jutsu_just_matched = false ∧
    (updateMain cfg u now sealv conf).1.pending_single_jutsu = some j ∧
    (updateMain cfg u now sealv conf).1.pending_single_time = now := by
  obtain ⟨t2, jc, im, hc, t3, fr, hp, heq⟩ := updateMain_cases cfg u now sealv conf
  rw [heq] at hcf hm ⊢
  dsimp only at hcf hm ⊢
  rcases hst : stableOf cfg u sealv conf with _ | s
  · rw [hst, confirmStep_noneStable] at hc
    simp only [Prod.mk.injEq] at hc
    obtain ⟨h2, hjc, him⟩ := hc
    rw [← hjc] at hcf
    exact Bool.noConfusion hcf
  · by_cases hheld : some s = (pushTracker cfg u sealv conf).last_confirmed
    · rw [hst, confirmStep_held cfg _ now hheld] at hc
      simp only [Prod.mk.injEq] at hc
      obtain ⟨h2, hjc, him⟩ := hc
      rw [← hjc] at hcf
      exact Bool.noConfusion hcf
    · rcases hmm : matchJutsu cfg.JUTSU_LIST
          ((pushTracker cfg u sealv conf).sequence ++ [s]) with _ | m
      · rw [hst, confirmStep_new_nomatch cfg _ now hheld hmm] at hc
        simp only [Prod.mk.injEq] at hc
        obtain ⟨h2, hjc, him⟩ := hc
        subst hjc
        subst him
        have hno : t2.pending_single_jutsu = none := by rw [← h2]
        rw [pendingStep_nonePending cfg t2 now hno] at hp
        simp only [Prod.mk.injEq] at hp
        obtain ⟨h3, hfr⟩ := hp
        subst h3
        rw [← h2] at hm
        have hm2 : matchJutsu cfg.JUTSU_LIST
            ((pushTracker cfg u sealv conf).sequence ++ [s]) = some j := hm
        rw [hmm] at hm2
        cases hm2
      · by_cases hm1 : m.seals.length = 1
        · rw [hst, confirmStep_new_single cfg _ now hheld hmm hm1] at hc
          simp only [Prod.mk.injEq] at hc
          obtain ⟨h2, hjc, him⟩ := hc
          subst hjc
          subst him
          have hsome : t2.pending_single_jutsu = some m := by rw [← h2]
          have htime : t2.pending_single_time = now := by rw [← h2]
          by_cases hdf : cfg.SINGLE_SEAL_DELAY_SEC ≤ now - t2.pending_single_time
          · rw [htime] at hdf
            simp only [sub_self] at hdf
            exact absurd hdf (not_le.mpr hd)
          · rw [pendingStep_wait cfg t2 now hsome hdf] at hp
            simp only [Prod.mk.injEq] at hp
            obtain ⟨h3, hfr⟩ := hp
            subst h3
            subst hfr
            rw [← h2] at hm
            have hm2 : matchJutsu cfg.JUTSU_LIST
                ((pushTracker cfg u sealv conf).sequence ++ [s]) = some j := hm
            rw [hmm] at hm2
            injection hm2 with hm2
            subst hm2
            refine ⟨rfl, ?_, ?_⟩
            · rw [← h2]
            · rw [← h2]
        · rw [hst, confirmStep_new_multi cfg _ now hheld hmm hm1] at hc
          simp only [Prod.mk.injEq] at hc
          obtain ⟨h2, hjc, him⟩ := hc
          subst hjc
          subst him
          have hno : t2.pending_single_jutsu = none := by rw [← h2]
          rw [pendingStep_nonePending cfg t2 now hno] at hp
          simp only [Prod.mk.injEq] at hp
          obtain ⟨h3, hfr⟩ := hp
          subst h3
          rw [← h2] at hm
          have hm2 : matchJutsu cfg.JUTSU_LIST
              ((pushTracker cfg u sealv conf).sequence ++ [s]) = some j := hm
          rw [hmm] at hm2
          injection hm2 with hm2
          subst hm2
          exact absurd h1 hm1

/-- Lift of `updateMain_arming` through the timeout check. -/
lemma update_arming (cfg : Config) (t : SequenceTracker) (now : ℚ)
    (sealv : Option String) (conf : ℚ) (j : Jutsu)
    (hd : 0 < cfg.SINGLE_SEAL_DELAY_SEC)
    (hcf : (update cfg t now sealv conf).2.seal_just_confirmed = true)
    (hm : matchJutsu cfg.JUTSU_LIST
      (update cfg t now sealv conf).2.confirmed_sequence = some j)
    (h1 : j.seals.length = 1) :
    (update cfg t now sealv conf).2.jutsu_just_matched = false ∧
    (update cfg t now sealv conf).1.pending_single_jutsu = some j ∧
    (update cfg t now sealv conf).1.pending_single_time = now := by
  cases hT : timedOut cfg t now
  · rw [update_eq_live cfg t now sealv conf hT] at hcf hm ⊢
    exact updateMain_arming cfg t now sealv conf j hd hcf hm h1
  · rw [update_eq_timedOut cfg t now sealv conf hT] at hcf hm ⊢
    exact updateMain_arming cfg (clearOnTimeout t) now sealv conf j hd hcf hm h1

/-! ### Trace lemmas -/

lemma stepOut_def (cfg : Config) (t : SequenceTracker) (i : Input) :
    stepOut cfg (t, i) = update cfg t i.now i.sealv i.confidence := rfl

lemma runSteps_nil (cfg : Config) (t : SequenceTracker) : runSteps cfg t [] = [] := rfl

lemma runSteps_cons (cfg : Config) (t : SequenceTracker) (i : Input) (rest : List Input) :
    runSteps cfg t (i :: rest) = (t, i) :: runSteps cfg (stepOut cfg (t, i)).1 rest := rfl

/-- Along any run from a tracker whose pending timestamp (if any) is at least
`τ0`, with every frame time at least `τ0`: the bound is preserved, and a
snapshot can report a length-1 entry only at a frame time at least one full
delay after `τ0`. -/
lemma trace_pending_lb (cfg : Config) (τ0 : ℚ) :
    ∀ (rest : List Input) (t : SequenceTracker),
      (∀ q, t.pending_single_jutsu = some q → τ0 ≤ t.pending_single_time) →
      (∀ inp ∈ rest, τ0 ≤ inp.now) →
      ∀ p ∈ runSteps cfg t rest,
        (∀ q, p.1.pending_single_jutsu = some q → τ0 ≤ p.1.pending_single_time) ∧
        (∀ j : Jutsu, j.seals.length = 1 →
          (stepOut cfg p).2.jutsu_just_matched = true →
          (stepOut cfg p).2.matched_jutsu = some j →
          τ0 + cfg.SINGLE_SEAL_DELAY_SEC ≤ p.2.now) := by
  intro rest
  induction rest with
  | nil =>
    intro t h0 ht p hp
    rw [runSteps_nil] at hp
    exact absurd hp (List.not_mem_nil p)
  | cons i rest ih =>
    intro t h0 ht p hp
    rw [runSteps_cons] at hp
    rcases List.mem_cons.mp hp with h | h
    · subst h
      refine ⟨h0, ?_⟩
      intro j hj1 hjm hmj
      rw [stepOut_def] at hjm hmj
      have hti : τ0 ≤ i.now := ht i (List.mem_cons_self i rest)
      rcases update_len1_report cfg t i.now i.sealv i.confidence j hj1 hjm hmj
        with hcase | hcase
      · obtain ⟨hq, hdl, _⟩ := hcase
        have hlb := h0 j hq
        show τ0 + cfg.SINGLE_SEAL_DELAY_SEC ≤ i.now
        linarith
      · obtain ⟨_, hdl⟩ := hcase
        show τ0 + cfg.SINGLE_SEAL_DELAY_SEC ≤ i.now
        linarith
    · refine ih (stepOut cfg (t, i)).1 ?_ ?_ p h
      · intro q hq
        rw [stepOut_def] at hq ⊢
        rcases update_pending_cases cfg t i.now i.sealv i.confidence q hq with hcase | hcase
        · rw [hcase.1]
          exact ht i (List.mem_cons_self i rest)
        · rw [hcase.2.1]
          exact h0 q hcase.1
      · intro inp hinp
        exact ht inp (List.mem_cons_of_mem i hinp)

/-- After a confirming step, any later report of a length-1 entry in the same
run comes at least one full delay after that confirming step's frame time. -/
lemma trace_confirm_then_report (cfg : Config) :
    ∀ (rest : List Input) (t : SequenceTracker),
      List.Pairwise (fun a b : Input => a.now ≤ b.now) rest →
      ∀ i k (pi pk : SequenceTracker × Input), i < k →
        (runSteps cfg t rest).get? i = some pi →
        (runSteps cfg t rest).get? k = some pk →
        (stepOut cfg pi).2.seal_just_confirmed = true →
        ∀ j : Jutsu, j.seals.length = 1 →
          (stepOut cfg pk).2.jutsu_just_matched = true →
          (stepOut cfg pk).2.matched_jutsu = some j →
          pi.2.now + cfg.SINGLE_SEAL_DELAY_SEC ≤ pk.2.now := by
  intro rest
  induction rest with
  | nil =>
    intro t _ i k pi pk _ hgi _ _ _ _ _ _
    rw [runSteps_nil] at hgi
    cases hgi
  | cons a tail ih =>
    intro t hsort i k pi pk hik hgi hgk hconf j hj1 hjm hmj
    rw [runSteps_cons] at hgi hgk
    rcases i with _ | i2
    · rw [List.get?_cons_zero] at hgi
      injection hgi with hgi
      subst hgi
      rcases k with _ | k2
      · exact absurd hik (Nat.lt_irrefl 0)
      · rw [List.get?_cons_succ] at hgk
        have hmem : pk ∈ runSteps cfg (stepOut cfg (t, a)).1 tail := List.get?_mem hgk
        have hbase : ∀ q, (stepOut cfg (t, a)).1.pending_single_jutsu = some q →
            a.now ≤ (stepOut cfg (t, a)).1.pending_single_time := by
          intro q hq
          rw [stepOut_def] at hq hconf ⊢
          rw [update_confirmed_pending_now cfg t a.now a.sealv a.confidence hconf q hq]
        have htail : ∀ inp ∈ tail, a.now ≤ inp.now := (List.pairwise_cons.mp hsort).1
        exact (trace_pending_lb cfg a.now tail (stepOut cfg (t, a)).1 hbase htail
          pk hmem).2 j hj1 hjm hmj
    · rcases k with _ | k2
      · exact absurd hik (by omega)
      · rw [List.get?_cons_succ] at hgi hgk
        exact ih (stepOut cfg (t, a)).1 (List.pairwise_cons.mp hsort).2 i2 k2 pi pk
          (by omega) hgi hgk hconf j hj1 hjm hmj

/-- While no update of the run reports a match, every snapshot carries the
tracker's sticky matched jutsu unchanged. -/
lemma trace_matched_persists (cfg : Config) (m : Jutsu) :
    ∀ (rest : List Input) (t : SequenceTracker), t.matched_jutsu = some m →
      ∀ k (pk : SequenceTracker × Input), (runSteps cfg t rest).get? k = some pk →
        (∀ i (pi : SequenceTracker × Input), i ≤ k →
          (runSteps cfg t rest).get? i = some pi →
          (stepOut cfg pi).2.jutsu_just_matched = false) →
        (stepOut cfg pk).2.matched_jutsu = some m := by
  intro rest
  induction rest with
  | nil =>
    intro t _ k pk hgk _
    rw [runSteps_nil] at hgk
    cases hgk
  | cons a tail ih =>
    intro t hm k pk hgk hnf
    rw [runSteps_cons] at hgk
    rcases k with _ | k2
    · rw [List.get?_cons_zero] at hgk
      injection hgk with hgk
      subst hgk
      have h0 := hnf 0 (t, a) (le_refl 0) (by rw [runSteps_cons, List.get?_cons_zero])
      rw [stepOut_def] at h0 ⊢
      rw [(update_noreport_matched cfg t a.now a.sealv a.confidence h0).1, hm]
    · rw [List.get?_cons_succ] at hgk
      have h0 := hnf 0 (t, a) (by omega) (by rw [runSteps_cons, List.get?_cons_zero])
      have hstep : (stepOut cfg (t, a)).1.matched_jutsu = some m := by
        rw [stepOut_def] at h0 ⊢
        rw [(update_noreport_matched cfg t a.now a.sealv a.confidence h0).2, hm]
      refine ih (stepOut cfg (t, a)).1 hstep k2 pk hgk ?_
      intro i2 pi hi2 hgi
      refine hnf (i2 + 1) pi (by omega) ?_
      rw [runSteps_cons, List.get?_cons_succ]
      exact hgi

/-- A run in which every step's stable seal equals that step's last-confirmed
seal (held steady, no timeout) confirms nothing and never appends. -/
lemma trace_held (cfg : Config) :
    ∀ (rest : List Input) (t : SequenceTracker),
      (∀ p ∈ runSteps cfg t rest,
        timedOut cfg p.1 p.2.now = false ∧
        stableOf cfg p.1 p.2.sealv p.2.confidence = p.1.last_confirmed ∧
        p.1.last_confirmed ≠ none) →
      (∀ p ∈ runSteps cfg t rest, (stepOut cfg p).2.seal_just_confirmed = false) ∧
      (runTracker cfg t rest).sequence = t.sequence := by
  intro rest
  induction rest with
  | nil =>
    intro t _
    exact ⟨fun p hp => absurd hp (List.not_mem_nil p), rfl⟩
  | cons a tail ih =>
    intro t H
    obtain ⟨hT, hs, hn⟩ := H (t, a) (by rw [runSteps_cons]; exact List.mem_cons_self _ _)
    have hstep := update_held cfg t a.now a.sealv a.confidence hT hs hn
    have Htail : ∀ p ∈ runSteps cfg (stepOut cfg (t, a)).1 tail,
        timedOut cfg p.1 p.2.now = false ∧
        stableOf cfg p.1 p.2.sealv p.2.confidence = p.1.last_confirmed ∧
        p.1.last_confirmed ≠ none := by
      intro p hp
      refine H p ?_
      rw [runSteps_cons]
      exact List.mem_cons_of_mem _ hp
    obtain ⟨ih1, ih2⟩ := ih (stepOut cfg (t, a)).1 Htail
    constructor
    · intro p hp
      rw [runSteps_cons] at hp
      rcases List.mem_cons.mp hp with h | h
      · subst h
        rw [stepOut_def]
        exact hstep.2.2
      · exact ih1 p h
    · have hrt : runTracker cfg t (a :: tail) = runTracker cfg (stepOut cfg (t, a)).1 tail := rfl
      rw [hrt, ih2, stepOut_def]
      exact hstep.1

/-! ### Claim theorems C5, C6, C9, C10 -/

/-- Claim C5: along a run of updates whose stable seal always equals the
current last-confirmed seal, nothing is appended and `seal_just_confirmed`
stays false (a continuously held seal is appended exactly once); a stable
seal of none resets the last-confirmed marker without appending; and an
append happens only when the stable seal differs from the marker — so the
same seal can be appended a second time only after an intervening update
whose stable seal is none. -/
theorem C5_dedup_and_gap_reset (cfg : Config) (t : SequenceTracker) (rest : List Input)
    (H : ∀ p ∈ runSteps cfg t rest,
      timedOut cfg p.1 p.2.now = false ∧
      stableOf cfg p.1 p.2.sealv p.2.confidence = p.1.last_confirmed ∧
      p.1.last_confirmed ≠ none) :
    ((∀ p ∈ runSteps cfg t rest, (stepOut cfg p).2.seal_just_confirmed = false) ∧
      (runTracker cfg t rest).sequence = t.sequence) ∧
    (∀ (now : ℚ) (sealv : Option String) (conf : ℚ), timedOut cfg t now = false →
      stableOf cfg t sealv conf = none →
      (update cfg t now sealv conf).1.last_confirmed = none ∧
      (update cfg t now sealv conf).1.sequence = t.sequence ∧
      (update cfg t now sealv conf).2.seal_just_confirmed = false) ∧
    (∀ (now : ℚ) (sealv : Option String) (conf : ℚ), timedOut cfg t now = false →
      (update cfg t now sealv conf).2.seal_just_confirmed = true →
      ∃ s, stableOf cfg t sealv conf = some s ∧ some s ≠ t.last_confirmed ∧
        (update cfg t now sealv conf).1.sequence = t.sequence ++ [s]) := by
  refine ⟨trace_held cfg rest t H, ?_, ?_⟩
  · intro now sealv conf hT hs
    exact update_stable_none cfg t now sealv conf hT hs
  · intro now sealv conf hT hcf
    exact update_confirm_chars cfg t now sealv conf hT hcf

set_option maxRecDepth 100000 in
/-- Witness for C5: the tracker holding `mi` for two further frames confirms
nothing and keeps its one-entry sequence. -/
theorem C5_dedup_and_gap_reset_witness :
    (∀ p ∈ runSteps realConfig heldTracker heldInputs,
      timedOut realConfig p.1 p.2.now = false ∧
      stableOf realConfig p.1 p.2.sealv p.2.confidence = p.1.last_confirmed ∧
      p.1.last_confirmed ≠ none) ∧
    (((∀ p ∈ runSteps realConfig heldTracker heldInputs,
        (stepOut realConfig p).2.seal_just_confirmed = false) ∧
      (runTracker realConfig heldTracker heldInputs).sequence = heldTracker.sequence) ∧
    (∀ (now : ℚ) (sealv : Option String) (conf : ℚ),
      timedOut realConfig heldTracker now = false →
      stableOf realConfig heldTracker sealv conf = none →
      (update realConfig heldTracker now sealv conf).1.last_confirmed = none ∧
      (update realConfig heldTracker now sealv conf).1.sequence = heldTracker.sequence ∧
      (update realConfig heldTracker now sealv conf).2.seal_just_confirmed = false) ∧
    (∀ (now : ℚ) (sealv : Option String) (conf : ℚ),
      timedOut realConfig heldTracker now = false →
      (update realConfig heldTracker now sealv conf).2.seal_just_confirmed = true →
      ∃ s, stableOf realConfig heldTracker sealv conf = some s ∧
        some s ≠ heldTracker.last_confirmed ∧
        (update realConfig heldTracker now sealv conf).1.sequence =
          heldTracker.sequence ++ [s])) :=
  ⟨by with_unfolding_all decide,
   C5_dedup_and_gap_reset realConfig heldTracker heldInputs (by with_unfolding_all decide)⟩

/-- Claim C6: the timeout condition holds exactly when the sequence is
non-empty and the time since the last confirmation strictly exceeds the idle
timeout; the timeout step clears exactly the sequence, the last-confirmed
marker and the pending single-seal match (window, sticky match and timestamps
untouched); it is evaluated at the start of `update`, before the new seal is
processed, so a timed-out update behaves exactly as the main body on the
cleared tracker (and can end with at most one freshly-appended seal), while a
non-timed-out update behaves as the main body on the untouched tracker and
never clears (it preserves or extends the sequence). -/
theorem C6_idle_timeout (cfg : Config) (t : SequenceTracker) (now : ℚ)
    (sealv : Option String) (conf : ℚ) :
    (timedOut cfg t now = true ↔
      t.sequence ≠ [] ∧ cfg.SEQUENCE_TIMEOUT_SEC < now - t.last_seal_time) ∧
    ((clearOnTimeout t).sequence = [] ∧ (clearOnTimeout t).last_confirmed = none ∧
      (clearOnTimeout t).pending_single_jutsu = none ∧
      (clearOnTimeout t).window = t.window ∧
      (clearOnTimeout t).matched_jutsu = t.matched_jutsu ∧
      (clearOnTimeout t).last_seal_time = t.last_seal_time) ∧
    (timedOut cfg t now = true →
      update cfg t now sealv conf = updateMain cfg (clearOnTimeout t) now sealv conf ∧
      (update cfg t now sealv conf).2.confirmed_sequence.length ≤ 1) ∧
    (timedOut cfg t now = false →
      update cfg t now sealv conf = updateMain cfg t now sealv conf ∧
      ((update cfg t now sealv conf).1.sequence = t.sequence ∨
        ∃ s, (update cfg t now sealv conf).1.sequence = t.sequence ++ [s])) := by
  refine ⟨?_, ⟨rfl, rfl, rfl, rfl, rfl, rfl⟩, ?_, ?_⟩
  · unfold timedOut
    exact decide_eq_true_iff
  · intro hT
    refine ⟨update_eq_timedOut cfg t now sealv conf hT, ?_⟩
    rw [update_eq_timedOut cfg t now sealv conf hT]
    have hcs : (updateMain cfg (clearOnTimeout t) now sealv conf).2.confirmed_sequence =
        (updateMain cfg (clearOnTimeout t) now sealv conf).1.sequence := rfl
    rw [hcs]
    have h0 : (clearOnTimeout t).sequence = [] := rfl
    rcases updateMain_seq_extend cfg (clearOnTimeout t) now sealv conf with h | ⟨s, h⟩
    · rw [h, h0]
      simp
    · rw [h, h0]
      simp
  · intro hT
    refine ⟨update_eq_live cfg t now sealv conf hT, ?_⟩
    rw [update_eq_live cfg t now sealv conf hT]
    exact updateMain_seq_extend cfg t now sealv conf

set_option maxRecDepth 100000 in
/-- Witness for C6: a stale one-seal sequence at time 10 times out and the
update ends with at most one freshly-appended seal. -/
theorem C6_idle_timeout_witness :
    timedOut realConfig staleTracker 10 = true ∧
    (update realConfig staleTracker 10 none 0 =
      updateMain realConfig (clearOnTimeout staleTracker) 10 none 0 ∧
     (update realConfig staleTracker 10 none 0).2.confirmed_sequence.length ≤ 1) :=
  ⟨by with_unfolding_all decide,
   (C6_idle_timeout realConfig staleTracker 10 none 0).2.2.1 (by with_unfolding_all decide)⟩

/-- Claim C9: a reporting update writes the reported pattern into both the
snapshot and the sticky field; a non-reporting update carries the sticky field
into the snapshot unchanged (in particular across an idle timeout); only
`reset` returns it to none (clearing also window, sequence, pending and
marker); and while no later update reports, every later snapshot still carries
the most recently matched pattern. -/
theorem C9_matched_sticky (cfg : Config) (t : SequenceTracker) (now : ℚ)
    (sealv : Option String) (conf : ℚ) (rest : List Input) (m : Jutsu) :
    ((update cfg t now sealv conf).2.jutsu_just_matched = true →
      ∃ r, (update cfg t now sealv conf).2.matched_jutsu = some r ∧
        (update cfg t now sealv conf).1.matched_jutsu = some r) ∧
    ((update cfg t now sealv conf).2.jutsu_just_matched = false →
      (update cfg t now sealv conf).2.matched_jutsu = t.matched_jutsu ∧
      (update cfg t now sealv conf).1.matched_jutsu = t.matched_jutsu) ∧
    (SequenceTracker.reset t).matched_jutsu = none ∧
    (SequenceTracker.reset t).sequence = [] ∧
    (SequenceTracker.reset t).window = [] ∧
    (SequenceTracker.reset t).pending_single_jutsu = none ∧
    (SequenceTracker.reset t).last_confirmed = none ∧
    (t.matched_jutsu = some m →
      ∀ k (pk : SequenceTracker × Input), (runSteps cfg t rest).get? k = some pk →
        (∀ i (pi : SequenceTracker × Input), i ≤ k →
          (runSteps cfg t rest).get? i = some pi →
          (stepOut cfg pi).2.jutsu_just_matched = false) →
        (stepOut cfg pk).2.matched_jutsu = some m) :=
  ⟨update_report_sets_matched cfg t now sealv conf,
   update_noreport_matched cfg t now sealv conf,
   rfl, rfl, rfl, rfl, rfl,
   fun hm k pk hgk hnf => trace_matched_persists cfg m rest t hm k pk hgk hnf⟩

/-- Witness for C9: a tracker that already matched the fireball keeps carrying
it through a further non-reporting frame. -/
theorem C9_matched_sticky_witness :
    matchedTracker.matched_jutsu = some katonJutsu ∧
    (∀ k (pk : SequenceTracker × Input),
      (runSteps realConfig matchedTracker [⟨1, none, 0⟩]).get? k = some pk →
      (∀ i (pi : SequenceTracker × Input), i ≤ k →
        (runSteps realConfig matchedTracker [⟨1, none, 0⟩]).get? i = some pi →
        (stepOut realConfig pi).2.jutsu_just_matched = false) →
      (stepOut realConfig pk).2.matched_jutsu = some katonJutsu) :=
  ⟨rfl, (C9_matched_sticky realConfig matchedTracker 1 none 0 [⟨1, none, 0⟩]
    katonJutsu).2.2.2.2.2.2.2 rfl⟩

/-- Claim C10: from an empty window with no last-confirmed seal and an empty
sequence (a fresh or reset tracker) and a positive window capacity, a single
frame of a seal at or above the confidence threshold immediately stabilizes
(one vote beats half of a window of length one), raises
`seal_just_confirmed`, and appends the seal — no hold of several frames is
required. -/
theorem C10_first_frame_confirms (cfg : Config) (h1 : 1 ≤ cfg.SEAL_HOLD_FRAMES)
    (s : String) (conf now : ℚ) (hc : cfg.CONFIDENCE_THRESHOLD ≤ conf)
    (t : SequenceTracker) (hw : t.window = []) (hl : t.last_confirmed = none)
    (hs : t.sequence = []) :
    (update cfg t now (some s) conf).2.current_seal = some s ∧
    (update cfg t now (some s) conf).2.seal_just_confirmed = true ∧
    (update cfg t now (some s) conf).2.confirmed_sequence = [s] := by
  have hT : timedOut cfg t now = false := by
    unfold timedOut
    simp [hs]
  rw [update_eq_live cfg t now (some s) conf hT]
  have hth : thresholdSeal cfg (some s) conf = some s := by
    have hcond : ¬((some s : Option String) ≠ none ∧ conf < cfg.CONFIDENCE_THRESHOLD) := by
      rintro ⟨_, hlt⟩
      exact absurd hlt (not_lt.mpr hc)
    unfold thresholdSeal
    rw [if_neg hcond]
  have hda : dequeAppend cfg.SEAL_HOLD_FRAMES [] (some s) = [some s] := by
    have hlen : ¬(cfg.SEAL_HOLD_FRAMES < (([] : List (Option String)) ++ [some s]).length) := by
      simp only [List.nil_append, List.length_cons, List.length_nil]
      omega
    simp only [dequeAppend]
    rw [if_neg hlen]
    simp
  have hcount : countSeal [some s] s = 1 := by
    simp [countSeal, List.filter_cons]
  have hmv : majorityVote [some s] = some s := by
    rw [majorityVote_some_iff, hcount]
    simp
  have hstable : stableOf cfg t (some s) conf = some s := by
    unfold stableOf
    rw [hth, hw, hda, hmv]
  obtain ⟨t2, jc, im, hc2, t3, fr, hp, heq⟩ := updateMain_cases cfg t now (some s) conf
  rw [heq]
  dsimp only
  have h3 : (pendingStep cfg t2 now).1 = t3 := by rw [hp]
  have hheld : ¬(some s = (pushTracker cfg t (some s) conf).last_confirmed) := by
    rw [pushTracker_last_confirmed, hl]
    simp
  rw [hstable] at hc2
  have key : jc = true ∧ t3.sequence = [s] := by
    rcases hmc : matchJutsu cfg.JUTSU_LIST
        ((pushTracker cfg t (some s) conf).sequence ++ [s]) with _ | m0
    · rw [confirmStep_new_nomatch cfg _ now hheld hmc] at hc2
      simp only [Prod.mk.injEq] at hc2
      obtain ⟨h2, hjc, him⟩ := hc2
      refine ⟨hjc.symm, ?_⟩
      rw [← h3, pendingStep_sequence, ← h2]
      simp [pushTracker_sequence, hs]
    · by_cases hm1 : m0.seals.length = 1
      · rw [confirmStep_new_single cfg _ now hheld hmc hm1] at hc2
        simp only [Prod.mk.injEq] at hc2
        obtain ⟨h2, hjc, him⟩ := hc2
        refine ⟨hjc.symm, ?_⟩
        rw [← h3, pendingStep_sequence, ← h2]
        simp [pushTracker_sequence, hs]
      · rw [confirmStep_new_multi cfg _ now hheld hmc hm1] at hc2
        simp only [Prod.mk.injEq] at hc2
        obtain ⟨h2, hjc, him⟩ := hc2
        refine ⟨hjc.symm, ?_⟩
        rw [← h3, pendingStep_sequence, ← h2]
        simp [pushTracker_sequence, hs]
  exact ⟨hstable, key.1, key.2⟩

/-- Witness for C10: a fresh tracker confirms `mi` on the very first frame. -/
theorem C10_first_frame_confirms_witness :
    (1 ≤ realConfig.SEAL_HOLD_FRAMES ∧ realConfig.CONFIDENCE_THRESHOLD ≤ 9 / 10 ∧
      mkTracker.window = [] ∧ mkTracker.last_confirmed = none ∧
      mkTracker.sequence = []) ∧
    ((update realConfig mkTracker 0 (some "mi") (9 / 10)).2.current_seal = some "mi" ∧
     (update realConfig mkTracker 0 (some "mi") (9 / 10)).2.seal_just_confirmed = true ∧
     (update realConfig mkTracker 0 (some "mi") (9 / 10)).2.confirmed_sequence = ["mi"]) :=
  ⟨⟨by decide, by with_unfolding_all decide, rfl, rfl, rfl⟩,
   C10_first_frame_confirms realConfig (by decide) "mi" (9 / 10) 0
     (by with_unfolding_all decide) mkTracker rfl rfl rfl⟩

/-! ### Claims C2 and C3: the single-seal delay and supersession -/

/-- Claim C2 (amended): a new confirmation at time `now` that selects a
length-1 catalog entry `j` (with a positive configured delay) is not reported
in that update's snapshot; along any later run with nondecreasing frame times
(all at or after `now`), `j` is reported only by an update whose frame time is
at least `now` plus the delay, and any report of `j` that follows an
intervening new confirmation comes at least one full delay after that
confirmation (the original arming is discarded by the confirmation; only a
fresh re-arming with its own timestamp can produce the report). -/
theorem C2_single_seal_delay_amended (cfg : Config) (t : SequenceTracker)
    (now : ℚ) (sealv : Option String) (conf : ℚ) (j : Jutsu) (rest : List Input)
    (hd : 0 < cfg.SINGLE_SEAL_DELAY_SEC)
    (hcf : (update cfg t now sealv conf).2.seal_just_confirmed = true)
    (hm : matchJutsu cfg.JUTSU_LIST
      (update cfg t now sealv conf).2.confirmed_sequence = some j)
    (h1 : j.seals.length = 1)
    (hmono : ∀ inp ∈ rest, now ≤ inp.now)
    (hsort : List.Pairwise (fun a b : Input => a.now ≤ b.now) rest) :
    (update cfg t now sealv conf).2.jutsu_just_matched = false ∧
    (∀ p ∈ runSteps cfg (update cfg t now sealv conf).1 rest,
      (stepOut cfg p).2.jutsu_just_matched = true →
      (stepOut cfg p).2.matched_jutsu = some j →
      now + cfg.SINGLE_SEAL_DELAY_SEC ≤ p.2.now) ∧
    (∀ i k (pi pk : SequenceTracker × Input), i < k →
      (runSteps cfg (update cfg t now sealv conf).1 rest).get? i = some pi →
      (runSteps cfg (update cfg t now sealv conf).1 rest).get? k = some pk →
      (stepOut cfg pi).2.seal_just_confirmed = true →
      (stepOut cfg pk).2.jutsu_just_matched = true →
      (stepOut cfg pk).2.matched_jutsu = some j →
      pi.2.now + cfg.SINGLE_SEAL_DELAY_SEC ≤ pk.2.now) := by
  obtain ⟨hnof, hpend, htime⟩ := update_arming cfg t now sealv conf j hd hcf hm h1
  refine ⟨hnof, ?_, ?_⟩
  · intro p hp hjm hmj
    have hbase : ∀ q, (update cfg t now sealv conf).1.pending_single_jutsu = some q →
        now ≤ (update cfg t now sealv conf).1.pending_single_time := by
      intro q _
      exact htime.symm.le
    exact (trace_pending_lb cfg now rest (update cfg t now sealv conf).1 hbase hmono
      p hp).2 j h1 hjm hmj
  · intro i k pi pk hik hgi hgk hc2 hjm hmj
    exact trace_confirm_then_report cfg rest (update cfg t now sealv conf).1 hsort
      i k pi pk hik hgi hgk hc2 j h1 hjm hmj

set_option maxRecDepth 100000 in
/-- Counterexample to C2 as stated: with catalog `[kage_bunshin]` and a delay
of 2, confirming `hitsuji` at time 0 arms the length-1 match; a fresh
confirmation of `hitsuji` occurs at time 2 (rest index 1), yet the pattern is
still reported later, at time 5 (rest index 2) — so "only if no new
confirmation occurred in between" fails on the code (the intervening
confirmation re-arms the same pattern with its own timestamp). -/
theorem C2_counterexample :
    (0 : ℚ) < cexConfig.SINGLE_SEAL_DELAY_SEC ∧
    (update cexConfig mkTracker 0 (some "hitsuji") 1).2.seal_just_confirmed = true ∧
    matchJutsu cexConfig.JUTSU_LIST
      (update cexConfig mkTracker 0 (some "hitsuji") 1).2.confirmed_sequence =
      some kageBunshinJutsu ∧
    kageBunshinJutsu.seals.length = 1 ∧
    ((runTrace cexConfig armedTracker
        [⟨1, none, 0⟩, ⟨2, some "hitsuji", 1⟩, ⟨5, none, 0⟩]).get? 1).map
      (fun st => st.seal_just_confirmed) = some true ∧
    ((runTrace cexConfig armedTracker
        [⟨1, none, 0⟩, ⟨2, some "hitsuji", 1⟩, ⟨5, none, 0⟩]).get? 2).map
      (fun st => (st.jutsu_just_matched, st.matched_jutsu)) =
      some (true, some kageBunshinJutsu) := by
  with_unfolding_all decide

set_option maxRecDepth 100000 in
/-- Witness for the amended C2 on the concrete arming scenario. -/
theorem C2_single_seal_delay_amended_witness :
    ((0 : ℚ) < cexConfig.SINGLE_SEAL_DELAY_SEC ∧
     (update cexConfig mkTracker 0 (some "hitsuji") 1).2.seal_just_confirmed = true ∧
     matchJutsu cexConfig.JUTSU_LIST
       (update cexConfig mkTracker 0 (some "hitsuji") 1).2.confirmed_sequence =
       some kageBunshinJutsu ∧
     kageBunshinJutsu.seals.length = 1 ∧
     (∀ inp ∈ ([⟨1, none, 0⟩, ⟨3, none, 0⟩] : List Input), (0 : ℚ) ≤ inp.now) ∧
     List.Pairwise (fun a b : Input => a.now ≤ b.now)
       ([⟨1, none, 0⟩, ⟨3, none, 0⟩] : List Input)) ∧
    ((update cexConfig mkTracker 0 (some "hitsuji") 1).2.jutsu_just_matched = false ∧
     (∀ p ∈ runSteps cexConfig (update cexConfig mkTracker 0 (some "hitsuji") 1).1
        ([⟨1, none, 0⟩, ⟨3, none, 0⟩] : List Input),
       (stepOut cexConfig p).2.jutsu_just_matched = true →
       (stepOut cexConfig p).2.matched_jutsu = some kageBunshinJutsu →
       (0 : ℚ) + cexConfig.SINGLE_SEAL_DELAY_SEC ≤ p.2.now) ∧
     (∀ i k (pi pk : SequenceTracker × Input), i < k →
       (runSteps cexConfig (update cexConfig mkTracker 0 (some "hitsuji") 1).1
         ([⟨1, none, 0⟩, ⟨3, none, 0⟩] : List Input)).get? i = some pi →
       (runSteps cexConfig (update cexConfig mkTracker 0 (some "hitsuji") 1).1
         ([⟨1, none, 0⟩, ⟨3, none, 0⟩] : List Input)).get? k = some pk →
       (stepOut cexConfig pi).2.seal_just_confirmed = true →
       (stepOut cexConfig pk).2.jutsu_just_matched = true →
       (stepOut cexConfig pk).2.matched_jutsu = some kageBunshinJutsu →
       pi.2.now + cexConfig.SINGLE_SEAL_DELAY_SEC ≤ pk.2.now)) :=
  ⟨⟨by with_unfolding_all decide, by with_unfolding_all decide,
    by with_unfolding_all decide, by decide, by with_unfolding_all decide,
    by with_unfolding_all decide⟩,
   C2_single_seal_delay_amended cexConfig mkTracker 0 (some "hitsuji") 1
     kageBunshinJutsu [⟨1, none, 0⟩, ⟨3, none, 0⟩]
     (by with_unfolding_all decide) (by with_unfolding_all decide)
     (by with_unfolding_all decide) (by decide) (by with_unfolding_all decide)
     (by with_unfolding_all decide)⟩

/-- Claim C3 (amended): if a length-1 pattern is pending and any new seal is
confirmed by an update occurring before the pending delay has elapsed (with a
positive configured delay), then the pending match is discarded in that
update: that update does not report the pattern, any pending match leaving it
is timestamped at that update's time, and in any later run with frame times at
or after that update the pattern is reported only at least one full delay
after that update — never from the discarded arming, only via a fresh arming
by a later confirmation. -/
theorem C3_supersession_amended (cfg : Config) (t : SequenceTracker) (now : ℚ)
    (sealv : Option String) (conf : ℚ) (j : Jutsu) (rest : List Input)
    (hd : 0 < cfg.SINGLE_SEAL_DELAY_SEC)
    (h1 : j.seals.length = 1)
    (_hpj : t.pending_single_jutsu = some j)
    (hearly : now - t.pending_single_time < cfg.SINGLE_SEAL_DELAY_SEC)
    (hcf : (update cfg t now sealv conf).2.seal_just_confirmed = true)
    (hmono : ∀ inp ∈ rest, now ≤ inp.now) :
    ¬((update cfg t now sealv conf).2.jutsu_just_matched = true ∧
      (update cfg t now sealv conf).2.matched_jutsu = some j) ∧
    ((update cfg t now sealv conf).1.pending_single_jutsu = none ∨
      (update cfg t now sealv conf).1.pending_single_time = now) ∧
    (∀ p ∈ runSteps cfg (update cfg t now sealv conf).1 rest,
      (stepOut cfg p).2.jutsu_just_matched = true →
      (stepOut cfg p).2.matched_jutsu = some j →
      now + cfg.SINGLE_SEAL_DELAY_SEC ≤ p.2.now) := by
  refine ⟨?_, ?_, ?_⟩
  · rintro ⟨hjm, hmj⟩
    rcases update_len1_report cfg t now sealv conf j h1 hjm hmj with hcase | hcase
    · obtain ⟨_, hdl, _⟩ := hcase
      linarith
    · obtain ⟨_, hdl⟩ := hcase
      linarith
  · rcases hq : (update cfg t now sealv conf).1.pending_single_jutsu with _ | q
    · exact Or.inl rfl
    · exact Or.inr (update_confirmed_pending_now cfg t now sealv conf hcf q hq)
  · intro p hpmem hjm hmj
    have hbase : ∀ q, (update cfg t now sealv conf).1.pending_single_jutsu = some q →
        now ≤ (update cfg t now sealv conf).1.pending_single_time := by
      intro q hq
      exact (update_confirmed_pending_now cfg t now sealv conf hcf q hq).symm.le
    exact (trace_pending_lb cfg now rest (update cfg t now sealv conf).1 hbase hmono
      p hpmem).2 j h1 hjm hmj

set_option maxRecDepth 100000 in
/-- Counterexample to C3 as stated: `kage_bunshin` is pending (armed at time
0); the new seal `ne` is confirmed at time 1 — before the delay of 2 has
elapsed — discarding the pending match; yet a later re-performance (`hitsuji`
confirmed at time 3) re-arms it and the snapshot at time 6 (rest index 2)
reports it, refuting "never reported as a match in any snapshot, in that
update or any later one". -/
theorem C3_counterexample :
    armedTracker.pending_single_jutsu = some kageBunshinJutsu ∧
    armedTracker.pending_single_time = 0 ∧
    kageBunshinJutsu.seals.length = 1 ∧
    (0 : ℚ) < cexConfig.SINGLE_SEAL_DELAY_SEC ∧
    (1 : ℚ) - armedTracker.pending_single_time < cexConfig.SINGLE_SEAL_DELAY_SEC ∧
    (update cexConfig armedTracker 1 (some "ne") 1).2.seal_just_confirmed = true ∧
    ((runTrace cexConfig (update cexConfig armedTracker 1 (some "ne") 1).1
        [⟨2, none, 0⟩, ⟨3, some "hitsuji", 1⟩, ⟨6, none, 0⟩]).get? 2).map
      (fun st => (st.jutsu_just_matched, st.matched_jutsu)) =
      some (true, some kageBunshinJutsu) := by
  with_unfolding_all decide

set_option maxRecDepth 100000 in
/-- Witness for the amended C3 on the concrete supersession scenario. -/
theorem C3_supersession_amended_witness :
    ((0 : ℚ) < cexConfig.SINGLE_SEAL_DELAY_SEC ∧
     kageBunshinJutsu.seals.length = 1 ∧
     armedTracker.pending_single_jutsu = some kageBunshinJutsu ∧
     (1 : ℚ) - armedTracker.pending_single_time < cexConfig.SINGLE_SEAL_DELAY_SEC ∧
     (update cexConfig armedTracker 1 (some "ne") 1).2.seal_just_confirmed = true ∧
     (∀ inp ∈ ([⟨10, some "hitsuji", 1⟩] : List Input), (1 : ℚ) ≤ inp.now)) ∧
    (¬((update cexConfig armedTracker 1 (some "ne") 1).2.jutsu_just_matched = true ∧
       (update cexConfig armedTracker 1 (some "ne") 1).2.matched_jutsu =
         some kageBunshinJutsu) ∧
     ((update cexConfig armedTracker 1 (some "ne") 1).1.pending_single_jutsu = none ∨
       (update cexConfig armedTracker 1 (some "ne") 1).1.pending_single_time = 1) ∧
     (∀ p ∈ runSteps cexConfig (update cexConfig armedTracker 1 (some "ne") 1).1
        ([⟨10, some "hitsuji", 1⟩] : List Input),
       (stepOut cexConfig p).2.jutsu_just_matched = true →
       (stepOut cexConfig p).2.matched_jutsu = some kageBunshinJutsu →
       (1 : ℚ) + cexConfig.SINGLE_SEAL_DELAY_SEC ≤ p.2.now)) :=
  ⟨⟨by with_unfolding_all decide, by decide, by with_unfolding_all decide,
    by with_unfolding_all decide, by with_unfolding_all decide,
    by with_unfolding_all decide⟩,
   C3_supersession_amended cexConfig armedTracker 1 (some "ne") 1 kageBunshinJutsu
     [⟨10, some "hitsuji", 1⟩] (by with_unfolding_all decide) (by decide)
     (by with_unfolding_all decide) (by with_unfolding_all decide)
     (by with_unfolding_all decide) (by with_unfolding_all decide)⟩

/-! ### Claims C7 and C8: the concrete scenario and construction validation -/

set_option maxRecDepth 400000 in
/-- Claim C7: with the real configuration and catalog, feeding `mi` for five
frames, none for three, `hitsuji` for five, none for three and `tora` for
five (all a tenth of a second apart at confidence 0.9) leaves the confirmed
sequence at `[mi, hitsuji]` after the `hitsuji` phase (snapshot 12), and the
update that confirms `tora` (snapshot 18) has sequence `[mi, hitsuji, tora]`,
reports a match, and the matched entry is `katon_goukakyu` (the fireball);
no snapshot before it reports anything (in particular no single-seal entry). -/
theorem C7_fireball_scenario :
    ((runTrace realConfig mkTracker c7inputs).get? 12).map
      (fun st => st.confirmed_sequence) = some ["mi", "hitsuji"] ∧
    ((runTrace realConfig mkTracker c7inputs).get? 18).map
      (fun st => (st.confirmed_sequence, st.seal_just_confirmed,
        st.jutsu_just_matched, st.matched_jutsu)) =
      some (["mi", "hitsuji", "tora"], true, true, some katonJutsu) ∧
    ((runTrace realConfig mkTracker c7inputs).take 18).all
      (fun st => !st.jutsu_just_matched) = true := by
  with_unfolding_all decide

set_option maxRecDepth 400000 in
/-- Claim C8 is violated by the code: `SequenceTracker.__init__` performs no
validation.  With `SEAL_HOLD_FRAMES = 0` construction succeeds and the
tracker silently never stabilizes or confirms anything (every update returns
an empty sequence and no stable seal), and with a negative
`SINGLE_SEAL_DELAY_SEC` a single-seal match is reported in the very update
that confirms it, instead of being deferred. -/
theorem C8_no_construction_validation :
    (runTrace zeroHoldConfig mkTracker miInputs).all
      (fun st => st.confirmed_sequence.isEmpty && st.current_seal.isNone) = true ∧
    (update negDelayConfig mkTracker 0 (some "hitsuji") 1).2.jutsu_just_matched
      = true ∧
    (update negDelayConfig mkTracker 0 (some "hitsuji") 1).2.matched_jutsu =
      some kageBunshinJutsu := by
  with_unfolding_all decide
